import Mathlib

/-!
# Shallow embedding of `vod_metadata` (VodPackage.py / md5_checksum.py)

This file embeds the CableLabs VOD metadata package model of
`VodPackage.py` in Lean 4 and proves / refutes the frozen claims about it.

Python dictionaries are modelled as insertion-ordered association lists with
unique keys (`Dict`), matching CPython semantics: assignment to an existing
key replaces the value in place, assignment to a new key appends, deletion
removes the entry, and iteration follows insertion order.
-/

namespace Vod

/-- Python `dict` (string keys): insertion-ordered association list. -/
abbrev Dict (α : Type) := List (String × α)

/-- `d[k]` as an option (Python raises `KeyError` on `none`). -/
def dictGet {α : Type} : Dict α → String → Option α
  | [], _ => none
  | (k1, v1) :: rest, k => if k1 = k then some v1 else dictGet rest k

/-- `d[k] = v`: replace in place if the key exists, else append. -/
def dictSet {α : Type} : Dict α → String → α → Dict α
  | [], k, v => [(k, v)]
  | (k1, v1) :: rest, k, v =>
      if k1 = k then (k, v) :: rest else (k1, v1) :: dictSet rest k v

/-- `del d[k]` (caller must check presence; Python raises `KeyError`). -/
def dictDel {α : Type} : Dict α → String → Dict α
  | [], _ => []
  | (k1, v1) :: rest, k => if k1 = k then rest else (k1, v1) :: dictDel rest k

/-- The keys of a dict, in insertion order (Python `for k in d`). -/
def dictKeys {α : Type} (d : Dict α) : List String := d.map Prod.fst

@[simp] theorem dictGet_nil {α : Type} (k : String) :
    dictGet ([] : Dict α) k = none := rfl

@[simp] theorem dictGet_cons {α : Type} (k1 : String) (v1 : α) (rest : Dict α)
    (k : String) :
    dictGet ((k1, v1) :: rest) k = if k1 = k then some v1 else dictGet rest k :=
  rfl

theorem dictGet_dictSet {α : Type} (d : Dict α) (k k2 : String) (v : α) :
    dictGet (dictSet d k v) k2 = if k = k2 then some v else dictGet d k2 := by
  induction d with
  | nil => simp [dictSet, dictGet]
  | cons hd tl ih =>
      obtain ⟨k1, v1⟩ := hd
      by_cases h1 : k1 = k
      · subst h1
        simp only [dictSet, if_pos rfl]
        by_cases h2 : k1 = k2 <;> simp [dictGet, h2]
      · simp only [dictSet, if_neg h1]
        by_cases h2 : k1 = k2
        · subst h2
          have : ¬ k = k1 := fun h => h1 h.symm
          simp [dictGet, this]
        · simp [dictGet, h2, ih]

@[simp] theorem dictGet_dictSet_self {α : Type} (d : Dict α) (k : String) (v : α) :
    dictGet (dictSet d k v) k = some v := by
  simp [dictGet_dictSet]

theorem dictGet_dictSet_ne {α : Type} (d : Dict α) (k k2 : String) (v : α)
    (h : k ≠ k2) : dictGet (dictSet d k v) k2 = dictGet d k2 := by
  simp [dictGet_dictSet, h]

theorem dictKeys_dictSet {α : Type} (d : Dict α) (k : String) (v : α) :
    dictKeys (dictSet d k v) =
      if (dictGet d k).isSome then dictKeys d else dictKeys d ++ [k] := by
  induction d with
  | nil => simp [dictSet, dictKeys, dictGet]
  | cons hd tl ih =>
      obtain ⟨k1, v1⟩ := hd
      by_cases h1 : k1 = k
      · subst h1
        simp [dictSet, dictKeys, dictGet]
      · simp only [dictSet, if_neg h1, dictKeys, List.map_cons, dictGet_cons,
          if_neg h1]
        simp only [dictKeys] at ih
        rw [ih]
        by_cases h2 : (dictGet tl k).isSome <;> simp [h2]

theorem dictGet_eq_none_of_not_mem_keys {α : Type} (d : Dict α) (k : String)
    (h : k ∉ dictKeys d) : dictGet d k = none := by
  induction d with
  | nil => rfl
  | cons hd tl ih =>
      obtain ⟨k1, v1⟩ := hd
      simp only [dictKeys, List.map_cons, List.mem_cons] at h
      push_neg at h
      have h1 : ¬ k1 = k := fun he => h.1 he.symm
      simp [dictGet, h1, ih (by simpa [dictKeys] using h.2)]

theorem dictGet_isSome_of_mem_keys {α : Type} (d : Dict α) (k : String)
    (h : k ∈ dictKeys d) : (dictGet d k).isSome := by
  induction d with
  | nil => simp [dictKeys] at h
  | cons hd tl ih =>
      obtain ⟨k1, v1⟩ := hd
      by_cases h1 : k1 = k
      · simp [dictGet, h1]
      · simp only [dictKeys, List.map_cons, List.mem_cons] at h
        rcases h with h | h
        · exact absurd h.symm h1
        · simp [dictGet, h1, ih (by simpa [dictKeys] using h)]

theorem dictKeys_nodup_dictSet {α : Type} (d : Dict α) (k : String) (v : α)
    (h : (dictKeys d).Nodup) : (dictKeys (dictSet d k v)).Nodup := by
  rw [dictKeys_dictSet]
  by_cases hs : (dictGet d k).isSome
  · simpa [hs]
  · have hk : k ∉ dictKeys d := by
      intro hmem
      exact hs (dictGet_isSome_of_mem_keys d k hmem)
    simp only [hs, if_false]
    simpa [List.nodup_append] using ⟨h, hk⟩

/-- Membership of an entry in a dict with `Nodup` keys determines `dictGet`. -/
theorem dictGet_of_mem_of_nodup {α : Type} (d : Dict α) (k : String) (v : α)
    (hmem : (k, v) ∈ d) (hnd : (dictKeys d).Nodup) : dictGet d k = some v := by
  induction d with
  | nil => simp at hmem
  | cons hd tl ih =>
      obtain ⟨k1, v1⟩ := hd
      simp only [dictKeys, List.map_cons, List.nodup_cons] at hnd
      rcases List.mem_cons.mp hmem with h | h
      · rw [Prod.mk.injEq] at h
        simp [dictGet, h.1, h.2]
      · have hk1 : k1 ≠ k := by
          intro he
          subst he
          exact hnd.1 (List.mem_map.mpr ⟨(k1, v), h, rfl⟩)
        simp [dictGet, hk1, ih h hnd.2]

/-! ## Python `int(...)` and `str(...)` on integers

`int(s)` accepts an optional sign followed by decimal digits (Python
additionally strips surrounding whitespace and allows underscore grouping
and non-ASCII digits; none of those arise for `Version_Major` values and
they are not modelled).  `str(i)` produces the usual decimal form with a
leading `-` for negative numbers. -/

/-- Value of one decimal digit character (caller checks `isDigit`). -/
def digitVal (c : Char) : Nat := c.toNat - '0'.toNat

/-- Horner evaluation of a digit string, `none` if empty or non-digit. -/
def decToNat? (cs : List Char) : Option Nat :=
  if cs ≠ [] ∧ cs.all Char.isDigit then
    some (cs.foldl (fun n c => n * 10 + digitVal c) 0)
  else
    none

/-- Python `int(s)`, restricted as documented above. -/
def pyInt? (s : String) : Option Int :=
  match s.toList with
  | [] => none
  | c :: rest =>
      if c = '-' then (decToNat? rest).map (fun n => -(n : Int))
      else if c = '+' then (decToNat? rest).map (fun n => (n : Int))
      else (decToNat? (c :: rest)).map (fun n => (n : Int))

/-- Fuel-driven decimal printer (structural recursion, so that concrete
values reduce inside the kernel), in the style of `Nat.toDigitsCore`. -/
def natDecCore : Nat → Nat → List Char → List Char
  | 0, _, ds => ds
  | fuel + 1, n, ds =>
      if n / 10 = 0 then Nat.digitChar (n % 10) :: ds
      else natDecCore fuel (n / 10) (Nat.digitChar (n % 10) :: ds)

/-- Decimal digit characters of a natural number, most significant first. -/
def natDec (n : Nat) : List Char := natDecCore (n + 1) n []

theorem natDecCore_shape (fuel : Nat) : ∀ n ds,
    natDecCore fuel n ds = natDecCore fuel n [] ++ ds := by
  induction fuel with
  | zero => intro n ds; rfl
  | succ fuel ih =>
      intro n ds
      by_cases h : n / 10 = 0
      · simp [natDecCore, h]
      · simp only [natDecCore, h, if_false, ih (n / 10) (Nat.digitChar (n % 10) :: ds),
          ih (n / 10) [Nat.digitChar (n % 10)]]
        simp

theorem natDecCore_fuel_irrel : ∀ n f1 f2, 0 < f1 → n < 10 ^ f1 →
    0 < f2 → n < 10 ^ f2 → natDecCore f1 n [] = natDecCore f2 n [] := by
  intro n
  induction n using Nat.strong_induction_on with
  | _ n ih =>
      intro f1 f2 hf1 hb1 hf2 hb2
      obtain ⟨a, rfl⟩ : ∃ a, f1 = a + 1 := ⟨f1 - 1, by omega⟩
      obtain ⟨b, rfl⟩ : ∃ b, f2 = b + 1 := ⟨f2 - 1, by omega⟩
      by_cases h : n / 10 = 0
      · simp [natDecCore, h]
      · have hn10 : 10 ≤ n := by
          by_contra hlt
          exact h (Nat.div_eq_of_lt (by omega))
        have hdiv : n / 10 < n := Nat.div_lt_self (by omega) (by omega)
        have ha : 0 < a := by
          rcases Nat.eq_zero_or_pos a with h0 | h0
          · subst h0; simp at hb1; omega
          · exact h0
        have hbpos : 0 < b := by
          rcases Nat.eq_zero_or_pos b with h0 | h0
          · subst h0; simp at hb2; omega
          · exact h0
        have hba : n / 10 < 10 ^ a := by
          have : n < 10 * 10 ^ a := by
            have := pow_succ 10 a
            omega
          omega
        have hbb : n / 10 < 10 ^ b := by
          have : n < 10 * 10 ^ b := by
            have := pow_succ 10 b
            omega
          omega
        have e1 : natDecCore (a + 1) n [] = natDecCore a (n / 10) [Nat.digitChar (n % 10)] := by
          simp [natDecCore, h]
        have e2 : natDecCore (b + 1) n [] = natDecCore b (n / 10) [Nat.digitChar (n % 10)] := by
          simp [natDecCore, h]
        rw [e1, e2, natDecCore_shape a (n / 10) [Nat.digitChar (n % 10)],
          natDecCore_shape b (n / 10) [Nat.digitChar (n % 10)],
          ih (n / 10) hdiv a b ha hba hbpos hbb]

theorem lt_ten_pow_succ_self (n : Nat) : n < 10 ^ (n + 1) := by
  calc n < 10 ^ n := Nat.lt_pow_self (by omega) n
    _ ≤ 10 ^ (n + 1) := Nat.pow_le_pow_right (by omega) (by omega)

/-- The recurrence the decimal printer satisfies. -/
theorem natDec_eq (n : Nat) :
    natDec n = if n < 10 then [Nat.digitChar n]
      else natDec (n / 10) ++ [Nat.digitChar (n % 10)] := by
  by_cases h : n < 10
  · have h1 : n / 10 = 0 := by omega
    have h2 : n % 10 = n := by omega
    simp [natDec, natDecCore, h1, h2, h]
  · have hdiv0 : ¬ n / 10 = 0 := by omega
    have hne : ¬ n < 10 := h
    simp only [natDec, natDecCore, if_neg hdiv0, if_neg hne]
    rw [natDecCore_shape]
    congr 1
    exact natDecCore_fuel_irrel (n / 10) n (n / 10 + 1) (by omega)
      (by
        have h1 : n < 10 ^ n := Nat.lt_pow_self (by omega) n
        have h2 : n / 10 < n := Nat.div_lt_self (by omega) (by omega)
        omega)
      (by omega) (lt_ten_pow_succ_self (n / 10))

/-- Python `str(i)` for an integer `i`. -/
def pyStr (i : Int) : String := String.mk (if i < 0 then '-' :: natDec i.natAbs else natDec i.toNat)

theorem digitChar_isDigit_and_val : ∀ d : Nat, d < 10 →
    (Nat.digitChar d).isDigit = true ∧ digitVal (Nat.digitChar d) = d := by
  decide

theorem natDec_ne_nil (n : Nat) : natDec n ≠ [] := by
  rw [natDec_eq]
  split
  · simp
  · simp

theorem natDec_all_digits (n : Nat) : (natDec n).all Char.isDigit = true := by
  induction n using Nat.strong_induction_on with
  | _ n ih =>
      rw [natDec_eq]
      split
      · next h =>
          simp [List.all_cons, (digitChar_isDigit_and_val n h).1]
      · next h =>
          have hd : n / 10 < n := Nat.div_lt_self (by omega) (by omega)
          have h10 : n % 10 < 10 := Nat.mod_lt _ (by omega)
          simp only [List.all_append, ih _ hd, List.all_cons, List.all_nil,
            (digitChar_isDigit_and_val _ h10).1, Bool.and_self, Bool.and_true]

theorem decToNat?_natDec (n : Nat) : decToNat? (natDec n) = some n := by
  have key : ∀ m : Nat, (natDec m).foldl (fun n c => n * 10 + digitVal c) 0 = m := by
    intro m
    have gen : ∀ m a : Nat,
        (natDec m).foldl (fun n c => n * 10 + digitVal c) a = a * 10 ^ (natDec m).length + m := by
      intro m
      induction m using Nat.strong_induction_on with
      | _ m ih =>
          intro a
          rw [natDec_eq]
          split
          · next h =>
              simp [List.foldl, (digitChar_isDigit_and_val m h).2]
          · next h =>
              have hd : m / 10 < m := Nat.div_lt_self (by omega) (by omega)
              have h10 : m % 10 < 10 := Nat.mod_lt _ (by omega)
              rw [List.foldl_append, ih _ hd a]
              simp only [List.foldl, List.length_append, List.length_cons,
                List.length_nil, (digitChar_isDigit_and_val _ h10).2]
              rw [pow_succ]
              have := Nat.div_add_mod m 10
              ring_nf
              omega
    have := gen m 0
    simpa using this
  simp [decToNat?, natDec_ne_nil, natDec_all_digits, key]

theorem dash_not_digit_head (n : Nat) : '-' :: (l : List Char) ≠ natDec n := by
  intro h
  have := natDec_all_digits n
  rw [← h] at this
  simp [List.all_cons] at this

/-- `int(str(i)) = i`: round trip of the modelled Python conversions. -/
theorem pyInt?_pyStr (i : Int) : pyInt? (pyStr i) = some i := by
  by_cases hneg : i < 0
  · have habs : -((i.natAbs : Int)) = i := by omega
    have hlist : (pyStr i).toList = '-' :: natDec i.natAbs := by
      simp only [pyStr, if_pos hneg]
      rfl
    rw [pyInt?]
    rw [hlist]
    simp [decToNat?_natDec, abs_of_neg hneg]
  · have habs : ((i.toNat : Int)) = i := by omega
    obtain ⟨c, rest, hcr⟩ : ∃ c rest, natDec i.toNat = c :: rest := by
      cases h : natDec i.toNat with
      | nil => exact absurd h (natDec_ne_nil _)
      | cons c rest => exact ⟨c, rest, rfl⟩
    have hlist : (pyStr i).toList = c :: rest := by
      simp only [pyStr, if_neg hneg]
      show natDec i.toNat = c :: rest
      exact hcr
    have hdig : c.isDigit = true := by
      have ha := natDec_all_digits i.toNat
      rw [hcr] at ha
      simp only [List.all_cons, Bool.and_eq_true] at ha
      exact ha.1
    have hcne1 : ¬ c = '-' := by
      intro h; subst h; simp [Char.isDigit] at hdig
    have hcne2 : ¬ c = '+' := by
      intro h; subst h; simp [Char.isDigit] at hdig
    rw [pyInt?]
    rw [hlist]
    simp only [if_neg hcne1, if_neg hcne2]
    rw [← hcr, decToNat?_natDec]
    simp [habs]

/-! ## Data model (`VodPackage.py`) -/

/-- Python exception kinds arising in `VodPackage.py`. -/
inductive PyError : Type
  | missingElement (msg : String)
  | invalidMpeg (msg : String)
  | keyError (key : String)
  | valueError (msg : String)
  | nameError (name : String)
  | indexError (msg : String)
deriving DecidableEq, Repr

/-- An `App_Data` value: a plain string, or a list for multi-valued names. -/
inductive AppValue : Type
  | single (s : String)
  | multi (l : List String)
deriving DecidableEq, Repr

/-- `VodPackage._multiples`: the App_Data names treated as lists. -/
def multiples : List String :=
  ["Provider_Content_Tier", "Subscriber_View_Limit", "Rating",
   "MSORating", "Advisories", "Audience", "Actors", "Director",
   "Producers", "Category", "Genre", "Chapter", "Recording_Artist",
   "Song_Title", "Languages", "Subtitle_Languages", "Dubbed_Languages"]

/-- One step of `_parse_App_Data`: classify `(Name, Value)` and accumulate.
The wildcard arm covers the absent-key case (`D[key] = [value]`); a stored
`single` under a multi-valued key never occurs (Python would fail with
`AttributeError` on `str.append`). -/
def appInsert (D : Dict AppValue) (kv : String × String) : Dict AppValue :=
  if kv.1 ∈ multiples then
    match dictGet D kv.1 with
    | some (AppValue.multi l) => dictSet D kv.1 (AppValue.multi (l ++ [kv.2]))
    | _ => dictSet D kv.1 (AppValue.multi [kv.2])
  else
    dictSet D kv.1 (AppValue.single kv.2)

/-- `VodPackage._parse_App_Data`: fold a section's `App_Data` children
(`(Name, Value)` attribute pairs) in document order. -/
def parseAppData (items : List (String × String)) : Dict AppValue :=
  items.foldl appInsert []

/-- One emitted `<App_Data App=... Name=... Value=...>` element. -/
structure AppDataElem where
  app : String
  name : String
  value : String
deriving DecidableEq, Repr

/-- `sorted(d.items(), key=lambda x: x[0])`. -/
def sortByKey {α : Type} (d : Dict α) : Dict α :=
  d.mergeSort (fun a b => decide (a.1 ≤ b.1))

/-- Iterating a stored App_Data value (`for v in value`).  A list yields its
entries; Python would iterate a plain string character by character (that
case is unreachable for the states built here). -/
def AppValue.iter : AppValue → List String
  | AppValue.multi l => l
  | AppValue.single s => s.toList.map (fun c => String.mk [c])

/-- A stored App_Data value used as the `Value` attribute string.  A stored
list under a single-valued key never occurs for the states built here
(Python could not stringify it); mapped to `""`. -/
def AppValue.str : AppValue → String
  | AppValue.single s => s
  | AppValue.multi _ => ""

/-- `VodPackage._write_App_Data`: the `App_Data` elements emitted for one
section, given the configured skip set (`param_skip`) and the package
`Product` attribute.  (Python reads `Product` afresh for each element;
the single up-front read here is observationally the same whenever
`Product` exists, and only changes which `KeyError` escapes otherwise.) -/
def appDataElems (skip : List String) (product : String) (D : Dict AppValue) :
    List AppDataElem :=
  (sortByKey D).flatMap (fun kv =>
    if kv.1 ∈ skip then []
    else if kv.1 ∈ multiples then
      kv.2.iter.map (fun v => { app := product, name := kv.1, value := v })
    else
      [{ app := product, name := kv.1, value := kv.2.str }])

/-- The in-memory package: `self.xml_path`, the three maps and the four
cached booleans of `VodPackage.__init__`. -/
structure VodPackage where
  xml_path : String
  D_ams : Dict (Dict String)
  D_app : Dict (Dict AppValue)
  D_content : Dict String
  has_preview : Bool
  has_poster : Bool
  is_update : Bool
  is_delete : Bool
deriving DecidableEq, Repr

/-- The parsed form of one nested `<Asset>` element of the source document. -/
structure AssetXml where
  ams : List (String × String)
  appData : List (String × String)
  content : Option String
deriving DecidableEq, Repr

/-- The parsed form of a source document, as `__init__` walks it: the package
`Metadata`, the title `Metadata` inside the top-level `Asset`, and the nested
`Asset` elements in document order.  Attribute lists have unique names (XML);
`appData` lists the `(Name, Value)` pairs of the `App_Data` children in
document order. -/
structure AdiXml where
  xmlPath : String
  pkgAms : List (String × String)
  pkgAppData : List (String × String)
  titleAms : List (String × String)
  titleAppData : List (String × String)
  assets : List AssetXml
deriving DecidableEq, Repr

/-- `d[k]` in `Except` form (`KeyError` when absent). -/
def pyGet {α : Type} (d : Dict α) (k : String) : Except PyError α :=
  match dictGet d k with
  | some v => Except.ok v
  | none => Except.error (PyError.keyError k)

/-- The package/title base of the three maps, as built before the asset
loop of `__init__`. -/
def amsInit (x : AdiXml) : Dict (Dict String) :=
  dictSet (dictSet [] "package" x.pkgAms) "title" x.titleAms

def appInit (x : AdiXml) : Dict (Dict AppValue) :=
  dictSet (dictSet [] "package" (parseAppData x.pkgAppData)) "title"
    (parseAppData x.titleAppData)

/-- One iteration of the asset loop of `__init__`: read `Asset_Class`
(`KeyError` when absent) and store the asset's AMS attributes, parsed
App_Data and optional Content value under that class. -/
def loadStep (st : Dict (Dict String) × Dict (Dict AppValue) × Dict String)
    (a : AssetXml) :
    Except PyError (Dict (Dict String) × Dict (Dict AppValue) × Dict String) :=
  match dictGet a.ams "Asset_Class" with
  | none => Except.error (PyError.keyError "Asset_Class")
  | some aeType =>
      Except.ok (dictSet st.1 aeType a.ams,
        dictSet st.2.1 aeType (parseAppData a.appData),
        match a.content with
        | some v => dictSet st.2.2 aeType v
        | none => st.2.2)

/-- `VodPackage.__init__` after the XML parse: build the three maps and the
cached flags.  `is_update` reads the (possibly asset-overwritten)
`D_ams["package"]` entry, while `is_delete` reads the original package `AMS`
element, exactly as in the source. -/
def load (x : AdiXml) : Except PyError VodPackage := do
  let folded ← x.assets.foldlM loadStep (amsInit x, appInit x, ([] : Dict String))
  let pkgEntry ← pyGet folded.1 "package"
  let vm ← pyGet pkgEntry "Version_Major"
  pure {
    xml_path := x.xmlPath
    D_ams := folded.1
    D_app := folded.2.1
    D_content := folded.2.2
    has_preview := (dictGet folded.1 "preview").isSome
    has_poster := (dictGet folded.1 "poster").isSome
    is_update := vm != "1"
    is_delete := (dictGet x.pkgAms "Verb").getD "" == "DELETE" }

/-- Output of serialization: one section's `AMS` attributes (in the order
they are `set`) and its `App_Data` elements. -/
structure SectionOut where
  amsAttrs : List (String × String)
  appData : List AppDataElem
deriving DecidableEq, Repr

/-- Output of serialization for one nested asset, plus its `Content`. -/
structure AssetOut where
  amsAttrs : List (String × String)
  appData : List AppDataElem
  content : Option String
deriving DecidableEq, Repr

/-- The tree content `write_xml` builds (sections in emission order). -/
structure AdiOut where
  pkg : SectionOut
  title : SectionOut
  assets : List (String × AssetOut)
deriving DecidableEq, Repr

/-- One iteration of the `for ae_type in ("movie", "preview", "poster")`
loop of `write_xml`: skip an absent section, else emit its AMS (sorted),
App_Data and optional Content. -/
def assetStep (skip : List String) (product : String) (p : VodPackage)
    (acc : List (String × AssetOut)) (aeType : String) :
    Except PyError (List (String × AssetOut)) :=
  match dictGet p.D_ams aeType with
  | none => Except.ok acc
  | some aeAms =>
      match dictGet p.D_app aeType with
      | none => Except.error (PyError.keyError aeType)
      | some aeApp =>
          Except.ok (acc ++ [(aeType,
            { amsAttrs := sortByKey aeAms
              appData := appDataElems skip product aeApp
              content := dictGet p.D_content aeType })])

/-- The body of `VodPackage.write_xml` after the movie check (the
`rewrite=False` path; `rewrite=True` first runs `check_files`, modelled
separately). -/
def writeXmlBody (skip : List String) (p : VodPackage) : Except PyError AdiOut := do
  let pkgAms ← pyGet p.D_ams "package"
  let product ← pyGet pkgAms "Product"
  let pkgApp ← pyGet p.D_app "package"
  let titleAms ← pyGet p.D_ams "title"
  let titleApp ← pyGet p.D_app "title"
  let assets ← ["movie", "preview", "poster"].foldlM (assetStep skip product p) []
  pure {
    pkg := { amsAttrs := sortByKey pkgAms, appData := appDataElems skip product pkgApp }
    title := { amsAttrs := sortByKey titleAms, appData := appDataElems skip product titleApp }
    assets := assets }

/-- `VodPackage.write_xml`: fail with `MissingElement` when no movie section
exists, before anything is built; otherwise build the tree. -/
def writeXml (skip : List String) (p : VodPackage) : Except PyError AdiOut :=
  if (dictGet p.D_ams "movie").isSome then writeXmlBody skip p
  else Except.error (PyError.missingElement "Package does not specify a movie element")

/-- `VodPackage._remove_ae`: three `del`s inside one `try`; a `KeyError` is
re-raised as `MissingElement` (the message typo is the source's), leaving any
deletions already performed in place. -/
def removeAe (p : VodPackage) (aeType : String) : Except (PyError × VodPackage) VodPackage :=
  let msg := "Package does not content a " ++ aeType ++ " element"
  if (dictGet p.D_ams aeType).isNone then
    Except.error (PyError.missingElement msg, p)
  else
    let p1 := { p with D_ams := dictDel p.D_ams aeType }
    if (dictGet p1.D_app aeType).isNone then
      Except.error (PyError.missingElement msg, p1)
    else
      let p2 := { p1 with D_app := dictDel p1.D_app aeType }
      if (dictGet p2.D_content aeType).isNone then
        Except.error (PyError.missingElement msg, p2)
      else
        Except.ok { p2 with D_content := dictDel p2.D_content aeType }

/-- `VodPackage.remove_preview` (the flag is cleared only on success). -/
def removePreview (p : VodPackage) : Except (PyError × VodPackage) VodPackage :=
  match removeAe p "preview" with
  | Except.ok q => Except.ok { q with has_preview := false }
  | Except.error e => Except.error e

/-- `VodPackage.remove_poster` (the flag is cleared only on success). -/
def removePoster (p : VodPackage) : Except (PyError × VodPackage) VodPackage :=
  match removeAe p "poster" with
  | Except.ok q => Except.ok { q with has_poster := false }
  | Except.error e => Except.error e

/-- One section of `make_update`:
`str(int(ams["Version_Major"]) + 1)` written back. -/
def bumpVersion (ams : Dict String) : Except PyError (Dict String) :=
  match dictGet ams "Version_Major" with
  | none => Except.error (PyError.keyError "Version_Major")
  | some v =>
      match pyInt? v with
      | none => Except.error (PyError.valueError v)
      | some n => Except.ok (dictSet ams "Version_Major" (pyStr (n + 1)))

/-- One step of a `for ae_type in self.D_ams:` mutation loop: look up the
iterated key and replace its section map with `f` of it.  (The `none` branch
is unreachable when iterating a dict's own keys.) -/
def updStep (f : Dict String → Except PyError (Dict String))
    (acc : Except (PyError × Dict (Dict String)) (Dict (Dict String)))
    (k : String) : Except (PyError × Dict (Dict String)) (Dict (Dict String)) :=
  match acc with
  | Except.error e => Except.error e
  | Except.ok d =>
      match dictGet d k with
      | none => Except.error (PyError.keyError k, d)
      | some ams =>
          match f ams with
          | Except.error e => Except.error (e, d)
          | Except.ok ams2 => Except.ok (dictSet d k ams2)

/-- A `for ae_type in self.D_ams:` loop applying `f` to every section. -/
def updFold (f : Dict String → Except PyError (Dict String))
    (d : Dict (Dict String)) :
    Except (PyError × Dict (Dict String)) (Dict (Dict String)) :=
  (dictKeys d).foldl (updStep f) (Except.ok d)

/-- `VodPackage.make_update`: bump every section of `D_ams` in insertion
order; on success clear `D_content` and set `is_update`.  A failure part-way
leaves the earlier bumps in place and the flags untouched. -/
def makeUpdate (p : VodPackage) : Except (PyError × VodPackage) VodPackage :=
  match updFold bumpVersion p.D_ams with
  | Except.error (e, d) => Except.error (e, { p with D_ams := d })
  | Except.ok d => Except.ok { p with D_ams := d, D_content := [], is_update := true }

/-- The per-section assignment of `make_delete`. -/
def setVerbDelete (ams : Dict String) : Except PyError (Dict String) :=
  Except.ok (dictSet ams "Verb" "DELETE")

/-- `VodPackage.make_delete`: set `Verb` to `"DELETE"` on every section (the
loop cannot fail; the error arm is unreachable). -/
def makeDelete (p : VodPackage) : VodPackage :=
  match updFold setVerbDelete p.D_ams with
  | Except.ok d => { p with D_ams := d, is_delete := true }
  | Except.error (_, d) => { p with D_ams := d, is_delete := true }

/-! ## `check_files` and the media scans -/

/-- The file-system facts `check_files` consults (`os.path.isfile`,
`os.path.getsize`, `md5_checksum`). -/
structure FileSys where
  isfile : String → Bool
  getsize : String → Nat
  md5sum : String → String

/-- An invocation of an external media inspector by `check_files`. -/
inductive ProbeCall : Type
  | video (aeType : String) (path : String)
  | image (path : String)
deriving DecidableEq, Repr

/-- Split a character list on `'/'` (the group list is never empty). -/
def splitSlash : List Char → List (List Char)
  | [] => [[]]
  | c :: rest =>
      if c = '/' then [] :: splitSlash rest
      else
        match splitSlash rest with
        | [] => [[c]]
        | g :: gs => (c :: g) :: gs

/-- Join character-list groups with `'/'`. -/
def joinSlash : List (List Char) → List Char
  | [] => []
  | [g] => g
  | g :: gs => g ++ '/' :: joinSlash gs

/-- `os.path.split(s)[0]` for the relative slash-separated paths used here. -/
def splitDir (s : String) : String :=
  String.mk (joinSlash (splitSlash s.toList).dropLast)

/-- Does the character list end in `'/'`? -/
def lastIsSlash (cs : List Char) : Bool :=
  match cs.getLast? with
  | some c => c = '/'
  | none => false

/-- `os.path.join(d, n)` for the slash-separated paths used here. -/
def pathJoin (d n : String) : String :=
  match n.toList with
  | '/' :: _ => n
  | _ =>
      if d = "" then n
      else if lastIsSlash d.toList then d ++ n
      else d ++ "/" ++ n

/-- One iteration of the `for ae_type, ae_name in self.D_content.items()`
loop of `check_files`: existence check, then store the file's size and
checksum in that section's App_Data, remembering the resolved path in the
loop variable. -/
def cfStep (fs : FileSys) (aeDir : String)
    (acc : Except (PyError × VodPackage) (VodPackage × Option String))
    (kv : String × String) :
    Except (PyError × VodPackage) (VodPackage × Option String) :=
  match acc with
  | Except.error e => Except.error e
  | Except.ok (q, _) =>
      let aePath := pathJoin aeDir kv.2
      if fs.isfile aePath = false then
        Except.error (PyError.missingElement
          ("Package's " ++ kv.1 ++ " element is missing - " ++ aePath), q)
      else
        match dictGet q.D_app kv.1 with
        | none => Except.error (PyError.keyError kv.1, q)
        | some app =>
            let app2 := dictSet
              (dictSet app "Content_FileSize"
                (AppValue.single (pyStr (fs.getsize aePath))))
              "Content_CheckSum" (AppValue.single (fs.md5sum aePath))
            Except.ok ({ q with D_app := dictSet q.D_app kv.1 app2 }, some aePath)

/-- `VodPackage.check_files`: verify each referenced file (in `D_content`
insertion order), record `Content_FileSize` / `Content_CheckSum` in that
section's App_Data, then invoke the scanners.  Each scan call receives
`ae_path` — the loop variable left over from the *last* iteration; with no
Content entries that variable was never bound (Python `NameError`).  The
returned list records the scanner invocations; the scanners' own App_Data
writes (see `scanCodec`) do not affect which path each scanner receives. -/
def checkFiles (fs : FileSys) (p : VodPackage) :
    Except (PyError × VodPackage) (VodPackage × List ProbeCall) :=
  match p.D_content.foldl (cfStep fs (splitDir p.xml_path)) (Except.ok (p, none)) with
  | Except.error e => Except.error e
  | Except.ok (q, none) => Except.error (PyError.nameError "ae_path", q)
  | Except.ok (q, some aePath) =>
      Except.ok (q,
        [ProbeCall.video "movie" aePath]
          ++ (if q.has_preview then [ProbeCall.video "preview" aePath] else [])
          ++ (if q.has_poster then [ProbeCall.image aePath] else []))

/-- First index of a character in a list, `-1` when absent. -/
def findCharIdx : List Char → Char → Int
  | [], _ => -1
  | c1 :: rest, c =>
      if c1 = c then 0
      else
        let r := findCharIdx rest c
        if r < 0 then -1 else r + 1

/-- Python `s.find(c)` for a one-character needle: first index or `-1`. -/
def pyFindChar (s : String) (c : Char) : Int := findCharIdx s.toList c

/-- Python `s.replace(".", "")`: drop every `'.'` character. -/
def removeDots (s : String) : String :=
  String.mk (s.toList.filter (fun ch => ¬ ch = '.'))

/-- Python `s[i:]` (a negative index counts from the end). -/
def pySliceFrom (s : String) (i : Int) : String :=
  let n : Int := s.toList.length
  let j := if i < 0 then n + i else i
  String.mk (s.toList.drop (max 0 j).toNat)

/-- The codec mapping of `VodPackage._scan_video` (lines 237-247): from the
probe's commercial name and format profile (and the content-file name used in
the error message) to the stored `Codec` value.  `format_profile[0]` on an
empty profile would raise `IndexError`. -/
def scanCodec (commercialName formatProfile contentName : String) :
    Except PyError String :=
  if commercialName = "MPEG-2 Video" then Except.ok "MPEG2"
  else if commercialName = "AVC" then
    match formatProfile.toList with
    | [] => Except.error (PyError.indexError "string index out of range")
    | c :: _ =>
        let avcProfile := String.mk [c]
        let avcLevel :=
          removeDots (pySliceFrom formatProfile (pyFindChar formatProfile '@'))
        Except.ok ("AVC " ++ avcProfile ++ "P" ++ avcLevel)
  else
    Except.error (PyError.invalidMpeg ("Could not determine codec for " ++ contentName))

/-- `VodPackage.list_files`: the thirteen identifier / filename strings, in
order.  Preview and poster lookups are guarded by the cached flags exactly as
in the source (in particular the `D_content` lookups). -/
def listFiles (p : VodPackage) : Except PyError (List String) := do
  let pkg ← pyGet p.D_ams "package"
  let packagePid ← pyGet pkg "Provider_ID"
  let packagePaid ← pyGet pkg "Asset_ID"
  let title ← pyGet p.D_ams "title"
  let titlePid ← pyGet title "Provider_ID"
  let titlePaid ← pyGet title "Asset_ID"
  let moviePid ← match dictGet p.D_ams "movie" with
    | some m => pyGet m "Provider_ID"
    | none => pure ""
  let moviePaid ← match dictGet p.D_ams "movie" with
    | some m => pyGet m "Asset_ID"
    | none => pure ""
  let movieFile := (dictGet p.D_content "movie").getD ""
  let previewPid ← if p.has_preview then do
      let d ← pyGet p.D_ams "preview"
      pyGet d "Provider_ID"
    else pure ""
  let previewPaid ← if p.has_preview then do
      let d ← pyGet p.D_ams "preview"
      pyGet d "Asset_ID"
    else pure ""
  let previewFile ← if p.has_preview then pyGet p.D_content "preview" else pure ""
  let posterPid ← if p.has_poster then do
      let d ← pyGet p.D_ams "poster"
      pyGet d "Provider_ID"
    else pure ""
  let posterPaid ← if p.has_poster then do
      let d ← pyGet p.D_ams "poster"
      pyGet d "Asset_ID"
    else pure ""
  let posterFile ← if p.has_poster then pyGet p.D_content "poster" else pure ""
  pure [packagePid, packagePaid, titlePid, titlePaid,
        moviePid, moviePaid, movieFile,
        previewPid, previewPaid, previewFile,
        posterPid, posterPaid, posterFile]

/-- The package-section AMS map (empty if that section is somehow absent). -/
def pkgAmsOf (p : VodPackage) : Dict String := (dictGet p.D_ams "package").getD []

/-- The derived-flag invariants of claim C8:
`is_update ⇔ Version_Major ≠ "1"` and `is_delete ⇔ Verb == "DELETE"`,
read from the package section's AMS map. -/
def invFlags (p : VodPackage) : Prop :=
  (p.is_update = true ↔ dictGet (pkgAmsOf p) "Version_Major" ≠ some "1")
  ∧ (p.is_delete = true ↔ (dictGet (pkgAmsOf p) "Verb").getD "" = "DELETE")

instance (p : VodPackage) : Decidable (invFlags p) := by
  unfold invFlags
  infer_instance

/-! ## Lemmas about the dict model and the mutation folds -/

theorem dictGet_dictDel_ne {α : Type} (d : Dict α) (k k2 : String) (h : k ≠ k2) :
    dictGet (dictDel d k) k2 = dictGet d k2 := by
  induction d with
  | nil => rfl
  | cons hd tl ih =>
      obtain ⟨k1, v1⟩ := hd
      by_cases h1 : k1 = k
      · subst h1
        have : ¬ k1 = k2 := h
        simp [dictDel, dictGet, this]
      · simp [dictDel, dictGet, h1, ih]

@[simp] theorem dictGet_dictDel_self {α : Type} (d : Dict α) (k : String)
    (hnd : (dictKeys d).Nodup) : dictGet (dictDel d k) k = none := by
  induction d with
  | nil => rfl
  | cons hd tl ih =>
      obtain ⟨k1, v1⟩ := hd
      simp only [dictKeys, List.map_cons, List.nodup_cons] at hnd
      by_cases h1 : k1 = k
      · subst h1
        simp only [dictDel, if_pos rfl]
        apply dictGet_eq_none_of_not_mem_keys
        simpa [dictKeys] using hnd.1
      · simp [dictDel, dictGet, h1, ih hnd.2]

theorem dictSet_append_of_not_mem {α : Type} (d : Dict α) (k : String) (v : α)
    (h : k ∉ dictKeys d) : dictSet d k v = d ++ [(k, v)] := by
  induction d with
  | nil => rfl
  | cons hd tl ih =>
      obtain ⟨k1, v1⟩ := hd
      simp only [dictKeys, List.map_cons, List.mem_cons] at h
      push_neg at h
      have h1 : ¬ k1 = k := fun he => h.1 he.symm
      simp [dictSet, h1, ih (by simpa [dictKeys] using h.2)]

theorem dictGet_map_value {α β : Type} (d : Dict α) (g : α → β) (k : String) :
    dictGet (d.map (fun kv => (kv.1, g kv.2))) k = (dictGet d k).map g := by
  induction d with
  | nil => rfl
  | cons hd tl ih =>
      obtain ⟨k1, v1⟩ := hd
      by_cases h1 : k1 = k <;> simp [dictGet, h1, ih]

theorem dictKeys_map_value {α β : Type} (d : Dict α) (g : α → β) :
    dictKeys (d.map (fun kv => (kv.1, g kv.2))) = dictKeys d := by
  induction d with
  | nil => rfl
  | cons hd tl ih => simp [dictKeys, ih]

theorem foldl_updStep_error (f : Dict String → Except PyError (Dict String))
    (ks : List String) (e : PyError × Dict (Dict String)) :
    ks.foldl (updStep f) (Except.error e) = Except.error e := by
  induction ks with
  | nil => rfl
  | cons k ks ih => simpa [updStep] using ih

theorem foldl_updStep_cons (f : Dict String → Except PyError (Dict String))
    (k0 : String) (x : Dict String) (ks : List String) (hk0 : k0 ∉ ks) :
    ∀ rest : Dict (Dict String),
      ks.foldl (updStep f) (Except.ok ((k0, x) :: rest)) =
        match ks.foldl (updStep f) (Except.ok rest) with
        | Except.ok d2 => Except.ok ((k0, x) :: d2)
        | Except.error (e, d2) => Except.error (e, (k0, x) :: d2) := by
  induction ks with
  | nil => intro rest; rfl
  | cons k ks ih =>
      intro rest
      simp only [List.mem_cons] at hk0
      push_neg at hk0
      have hne : ¬ k0 = k := hk0.1
      simp only [List.foldl_cons]
      show ks.foldl (updStep f) (updStep f (Except.ok ((k0, x) :: rest)) k) = _
      rw [show updStep f (Except.ok ((k0, x) :: rest)) k =
          (match dictGet ((k0, x) :: rest) k with
           | none => Except.error (PyError.keyError k, (k0, x) :: rest)
           | some ams =>
               match f ams with
               | Except.error e => Except.error (e, (k0, x) :: rest)
               | Except.ok ams2 => Except.ok (dictSet ((k0, x) :: rest) k ams2)) from rfl]
      rw [dictGet_cons, if_neg hne]
      cases hg : dictGet rest k with
      | none =>
          have hstep : updStep f (Except.ok rest) k =
              Except.error (PyError.keyError k, rest) := by
            simp [updStep, hg]
          simp [hstep, foldl_updStep_error]
      | some ams =>
          cases hf : f ams with
          | error e =>
              have hstep : updStep f (Except.ok rest) k = Except.error (e, rest) := by
                simp [updStep, hg, hf]
              simp [hf, hstep, foldl_updStep_error]
          | ok ams2 =>
              have hstep : updStep f (Except.ok rest) k =
                  Except.ok (dictSet rest k ams2) := by
                simp [updStep, hg, hf]
              have hset : dictSet ((k0, x) :: rest) k ams2 =
                  (k0, x) :: dictSet rest k ams2 := by
                simp [dictSet, hne]
              simp only [hf, hset, hstep]
              exact ih hk0.2 (dictSet rest k ams2)

/-- On a dict with distinct keys whose sections all transform successfully,
the mutation loop is a per-entry map. -/
theorem updFold_map (f : Dict String → Except PyError (Dict String)) :
    ∀ d : Dict (Dict String), (dictKeys d).Nodup →
    (∀ kv ∈ d, ∃ r, f kv.2 = Except.ok r) →
    updFold f d = Except.ok (d.map (fun kv =>
      (kv.1, match f kv.2 with | Except.ok r => r | Except.error _ => kv.2))) := by
  intro d
  induction d with
  | nil => intro _ _; rfl
  | cons hd rest ih =>
      obtain ⟨k0, v0⟩ := hd
      intro hnd hall
      simp only [dictKeys, List.map_cons, List.nodup_cons] at hnd
      obtain ⟨r0, hr0⟩ := hall (k0, v0) (List.mem_cons_self _ _)
      have hget : dictGet ((k0, v0) :: rest) k0 = some v0 := by simp [dictGet]
      have hset : dictSet ((k0, v0) :: rest) k0 r0 = (k0, r0) :: rest := by
        simp [dictSet]
      have hstep : updStep f (Except.ok ((k0, v0) :: rest)) k0 =
          Except.ok ((k0, r0) :: rest) := by
        simp [updStep, hget, hr0, hset]
      have hrest : updFold f rest = Except.ok (rest.map (fun kv =>
          (kv.1, match f kv.2 with | Except.ok r => r | Except.error _ => kv.2))) :=
        ih (by simpa [dictKeys] using hnd.2)
          (fun kv hkv => hall kv (List.mem_cons_of_mem _ hkv))
      have hk0 : k0 ∉ dictKeys rest := by simpa [dictKeys] using hnd.1
      show ((k0 :: dictKeys rest).foldl (updStep f) (Except.ok ((k0, v0) :: rest))) = _
      rw [List.foldl_cons, hstep, foldl_updStep_cons f k0 r0 (dictKeys rest) hk0 rest]
      rw [show (dictKeys rest).foldl (updStep f) (Except.ok rest) = updFold f rest from rfl,
        hrest]
      simp [hr0]

/-- The result of one loop step, as a total function (used only where the
step is known to succeed). -/
def updApply (f : Dict String → Except PyError (Dict String)) (ams : Dict String) :
    Dict String :=
  match f ams with
  | Except.ok r => r
  | Except.error _ => ams

theorem bumpVersion_ok (ams : Dict String) (v : String) (n : Int)
    (hv : dictGet ams "Version_Major" = some v) (hn : pyInt? v = some n) :
    bumpVersion ams = Except.ok (dictSet ams "Version_Major" (pyStr (n + 1))) := by
  simp [bumpVersion, hv, hn]

theorem makeUpdate_ok (p : VodPackage) (hnd : (dictKeys p.D_ams).Nodup)
    (hall : ∀ kv ∈ p.D_ams, ∃ v n,
      dictGet kv.2 "Version_Major" = some v ∧ pyInt? v = some n) :
    makeUpdate p = Except.ok { p with
      D_ams := p.D_ams.map (fun kv => (kv.1, updApply bumpVersion kv.2))
      D_content := []
      is_update := true } := by
  have h := updFold_map bumpVersion p.D_ams hnd (by
    intro kv hkv
    obtain ⟨v, n, hv, hn⟩ := hall kv hkv
    exact ⟨_, bumpVersion_ok kv.2 v n hv hn⟩)
  simp only [makeUpdate, h]
  rfl

theorem makeDelete_eq (p : VodPackage) (hnd : (dictKeys p.D_ams).Nodup) :
    makeDelete p = { p with
      D_ams := p.D_ams.map (fun kv => (kv.1, dictSet kv.2 "Verb" "DELETE"))
      is_delete := true } := by
  have h := updFold_map setVerbDelete p.D_ams hnd (fun kv _ => ⟨_, rfl⟩)
  simp only [makeDelete, h]
  rfl

/-- C4: for every package whose present sections all carry an
integer-parseable AMS `Version_Major`, `make_update` increments every present
section's `Version_Major` by exactly 1 (written back as a decimal string,
leaving the section's other AMS attributes unchanged), empties the Content
map, and sets `is_update`; calling it twice increments every `Version_Major`
by 2 in total — it is not idempotent. -/
theorem C4_make_update (p : VodPackage)
    (hnd : (dictKeys p.D_ams).Nodup)
    (hall : ∀ kv ∈ p.D_ams, ∃ v n,
      dictGet kv.2 "Version_Major" = some v ∧ pyInt? v = some n) :
    ∃ q, makeUpdate p = Except.ok q ∧
      q.D_content = [] ∧
      q.is_update = true ∧
      (∀ k ams v n, dictGet p.D_ams k = some ams →
        dictGet ams "Version_Major" = some v → pyInt? v = some n →
        ∃ ams2, dictGet q.D_ams k = some ams2 ∧
          dictGet ams2 "Version_Major" = some (pyStr (n + 1)) ∧
          ∀ k2, k2 ≠ "Version_Major" → dictGet ams2 k2 = dictGet ams k2) ∧
      ∃ r, makeUpdate q = Except.ok r ∧
        ∀ k ams v n, dictGet p.D_ams k = some ams →
          dictGet ams "Version_Major" = some v → pyInt? v = some n →
          ∃ ams3, dictGet r.D_ams k = some ams3 ∧
            dictGet ams3 "Version_Major" = some (pyStr (n + 2)) := by
  have hq := makeUpdate_ok p hnd hall
  set g : Dict String → Dict String := updApply bumpVersion with hg
  refine ⟨_, hq, rfl, rfl, ?_, ?_⟩
  · intro k ams v n hk hv hn
    have hbump : bumpVersion ams = Except.ok (dictSet ams "Version_Major" (pyStr (n + 1))) :=
      bumpVersion_ok ams v n hv hn
    have hgv : g ams = dictSet ams "Version_Major" (pyStr (n + 1)) := by
      simp [hg, updApply, hbump]
    refine ⟨g ams, ?_, ?_, ?_⟩
    · show dictGet (p.D_ams.map (fun kv => (kv.1, g kv.2))) k = some (g ams)
      rw [dictGet_map_value, hk]
      rfl
    · rw [hgv]
      exact dictGet_dictSet_self _ _ _
    · intro k2 hk2
      rw [hgv]
      exact dictGet_dictSet_ne _ _ _ _ (fun he => hk2 he.symm)
  · refine
      (fun (q0 : VodPackage) (hq0 : q0 = { p with
          D_ams := p.D_ams.map (fun kv => (kv.1, g kv.2))
          D_content := []
          is_update := true }) => ?_) _ rfl
    have hnd2 : (dictKeys q0.D_ams).Nodup := by
      rw [hq0]
      show (dictKeys (p.D_ams.map (fun kv => (kv.1, g kv.2)))).Nodup
      rw [dictKeys_map_value]
      exact hnd
    have hall2 : ∀ kv ∈ q0.D_ams, ∃ v n,
        dictGet kv.2 "Version_Major" = some v ∧ pyInt? v = some n := by
      rw [hq0]
      show ∀ kv ∈ p.D_ams.map (fun kv => (kv.1, g kv.2)), _
      intro kv2 hkv2
      obtain ⟨kv, hkv, hkveq⟩ := List.mem_map.mp hkv2
      obtain ⟨v, n, hv, hn⟩ := hall kv hkv
      have hbump : bumpVersion kv.2 =
          Except.ok (dictSet kv.2 "Version_Major" (pyStr (n + 1))) :=
        bumpVersion_ok kv.2 v n hv hn
      refine ⟨pyStr (n + 1), n + 1, ?_, pyInt?_pyStr (n + 1)⟩
      rw [← hkveq]
      show dictGet (g kv.2) "Version_Major" = some (pyStr (n + 1))
      simp [hg, updApply, hbump]
    have hr := makeUpdate_ok q0 hnd2 hall2
    rw [hq0] at hr
    refine ⟨_, hr, ?_⟩
    intro k ams v n hk hv hn
    have hbump : bumpVersion ams = Except.ok (dictSet ams "Version_Major" (pyStr (n + 1))) :=
      bumpVersion_ok ams v n hv hn
    have hgv : g ams = dictSet ams "Version_Major" (pyStr (n + 1)) := by
      simp [hg, updApply, hbump]
    have hbump2 : bumpVersion (g ams) =
        Except.ok (dictSet (g ams) "Version_Major" (pyStr (n + 1 + 1))) := by
      apply bumpVersion_ok (g ams) (pyStr (n + 1)) (n + 1)
      · rw [hgv]; exact dictGet_dictSet_self _ _ _
      · exact pyInt?_pyStr (n + 1)
    have hup : ∀ b r, bumpVersion b = Except.ok r → updApply bumpVersion b = r := by
      intro b r hbr
      simp [updApply, hbr]
    have hgv2 : g (g ams) = dictSet (g ams) "Version_Major" (pyStr (n + 1 + 1)) :=
      hup _ _ hbump2
    refine ⟨g (g ams), ?_, ?_⟩
    · show dictGet ((p.D_ams.map (fun kv => (kv.1, g kv.2))).map
          (fun kv => (kv.1, g kv.2))) k = some (g (g ams))
      rw [dictGet_map_value, dictGet_map_value, hk]
      rfl
    · rw [hgv2]
      have : n + 1 + 1 = n + 2 := by ring
      rw [this]
      exact dictGet_dictSet_self _ _ _

/-- Witness for C4 at a concrete two-section package with versions 1 and 41:
after one update they read "2" and "42", after two updates "3" and "43". -/
theorem C4_make_update_witness :
    ∃ q, makeUpdate
        { xml_path := "pkg/x.xml"
          D_ams := [("package", [("Version_Major", "1")]), ("title", [("Version_Major", "41")])]
          D_app := [], D_content := [("movie", "a.mpg")]
          has_preview := false, has_poster := false
          is_update := false, is_delete := false } = Except.ok q ∧
      q.D_content = [] ∧ q.is_update = true ∧
      (∃ ams2, dictGet q.D_ams "title" = some ams2 ∧
        dictGet ams2 "Version_Major" = some (pyStr (41 + 1)) ∧
        ∀ k2, k2 ≠ "Version_Major" → dictGet ams2 k2 = dictGet [("Version_Major", "41")] k2) ∧
      ∃ r, makeUpdate q = Except.ok r ∧
        ∃ ams3, dictGet r.D_ams "title" = some ams3 ∧
          dictGet ams3 "Version_Major" = some (pyStr (41 + 2)) := by
  obtain ⟨q, h1, h2, h3, h4, r, h5, h6⟩ :=
    C4_make_update
      { xml_path := "pkg/x.xml"
        D_ams := [("package", [("Version_Major", "1")]), ("title", [("Version_Major", "41")])]
        D_app := [], D_content := [("movie", "a.mpg")]
        has_preview := false, has_poster := false
        is_update := false, is_delete := false }
      (by decide)
      (by
        intro kv hkv
        have hor : kv = ("package", [("Version_Major", "1")]) ∨
            kv = ("title", [("Version_Major", "41")]) := by simpa using hkv
        rcases hor with h | h
        · exact ⟨"1", 1, by rw [h]; decide, by decide⟩
        · exact ⟨"41", 41, by rw [h]; decide, by decide⟩)
  refine ⟨q, h1, h2, h3, ?_, r, h5, ?_⟩
  · exact h4 "title" [("Version_Major", "41")] "41" 41 (by decide) (by decide) (by decide)
  · obtain ⟨ams3, ha, hb⟩ :=
      h6 "title" [("Version_Major", "41")] "41" 41 (by decide) (by decide) (by decide)
    exact ⟨ams3, ha, hb⟩

/-- C10: on a package whose Content map is empty (as after `make_update`),
`check_files` fails with an uncaught `NameError` — the loop variable
`ae_path` is never bound — before performing any file check or invoking any
scanner, and the package state is untouched. -/
theorem C10_check_files_empty_content (fs : FileSys) (p : VodPackage)
    (h : p.D_content = []) :
    checkFiles fs p = Except.error (PyError.nameError "ae_path", p) := by
  rw [checkFiles, h]
  rfl

/-- Witness for C10: a concrete post-`make_update`-shaped package with no
Content entries, under a file system on which every path exists. -/
theorem C10_check_files_empty_content_witness :
    checkFiles
        { isfile := fun _ => true, getsize := fun _ => 7, md5sum := fun _ => "d41d8cd9" }
        { xml_path := "pkg/x.xml"
          D_ams := [("package", [("Version_Major", "2")]), ("title", []), ("movie", [])]
          D_app := [("package", []), ("title", []), ("movie", [])]
          D_content := []
          has_preview := false, has_poster := false
          is_update := true, is_delete := false } =
      Except.error (PyError.nameError "ae_path",
        { xml_path := "pkg/x.xml"
          D_ams := [("package", [("Version_Major", "2")]), ("title", []), ("movie", [])]
          D_app := [("package", []), ("title", []), ("movie", [])]
          D_content := []
          has_preview := false, has_poster := false
          is_update := true, is_delete := false }) :=
  C10_check_files_empty_content _ _ rfl

/-- The concrete package refuting claim C3: a preview section present in
`D_ams` and `D_app` but with no Content reference (exactly the state left by
`make_update`, or by a source document whose preview asset has no `Content`
element). -/
def pC3 : VodPackage :=
  { xml_path := "pkg/x.xml"
    D_ams := [("package", [("Product", "MOD")]), ("title", []),
              ("movie", []), ("preview", [("Asset_Class", "preview")])]
    D_app := [("package", []), ("title", []), ("movie", []), ("preview", [])]
    D_content := [("movie", "a.mpg")]
    has_preview := true, has_poster := false
    is_update := false, is_delete := false }

/-- The state `remove_preview` leaves behind on `pC3`: the preview entries of
`D_ams` and `D_app` are already gone, yet the call failed and `has_preview`
is still set. -/
def pC3after : VodPackage :=
  { pC3 with
    D_ams := [("package", [("Product", "MOD")]), ("title", []), ("movie", [])]
    D_app := [("package", []), ("title", []), ("movie", [])] }

/-- C3 (code bug): on a package whose preview section is present (in `D_ams`
and `D_app`) but has no Content reference, `remove_preview` raises
`MissingElement` even though the section is present, and the failing call has
already deleted the section from `D_ams` and `D_app` and leaves
`has_preview` set — the state is mutated, not left unchanged. -/
theorem C3_remove_preview_partial_mutation :
    dictGet pC3.D_ams "preview" = some [("Asset_Class", "preview")] ∧
    dictGet pC3.D_app "preview" = some [] ∧
    removePreview pC3 =
      Except.error (PyError.missingElement "Package does not content a preview element",
        pC3after) ∧
    pC3after.has_preview = true ∧
    dictGet pC3after.D_ams "preview" = none ∧
    pC3after ≠ pC3 := by
  refine ⟨by decide, by decide, ?_, by decide, by decide, by decide⟩
  rfl

/-- The concrete package refuting claim C7: package and title carry
`Provider_ID` / `Asset_ID`, the preview section is present with both ids, but
there is no preview Content reference (the state `make_update` leaves). -/
def pC7 : VodPackage :=
  { xml_path := "pkg/x.xml"
    D_ams := [("package", [("Provider_ID", "e.com"), ("Asset_ID", "P1")]),
              ("title", [("Provider_ID", "e.com"), ("Asset_ID", "T1")]),
              ("movie", [("Provider_ID", "e.com"), ("Asset_ID", "M1")]),
              ("preview", [("Provider_ID", "e.com"), ("Asset_ID", "R1")])]
    D_app := [("package", []), ("title", []), ("movie", []), ("preview", [])]
    D_content := [("movie", "a.mpg")]
    has_preview := true, has_poster := false
    is_update := true, is_delete := false }

/-- C7 (code bug): `list_files` on a package whose package and title AMS
carry `Provider_ID` and `Asset_ID` still fails — the preview content lookup
`self.D_content["preview"]` is guarded by `has_preview` instead of by
Content-map membership, so a present preview section without a Content
reference raises `KeyError` instead of yielding the empty string. -/
theorem C7_list_files_keyerror :
    listFiles pC7 = Except.error (PyError.keyError "preview") ∧
    dictGet pC7.D_ams "preview" = some [("Provider_ID", "e.com"), ("Asset_ID", "R1")] ∧
    dictGet pC7.D_content "preview" = none := by
  refine ⟨?_, by decide, by decide⟩
  rfl

/-- The concrete package refuting claim C2: movie, preview and poster all
referencing their own content files. -/
def pC2 : VodPackage :=
  { xml_path := "pkg/x.xml"
    D_ams := [("package", []), ("title", []), ("movie", []),
              ("preview", []), ("poster", [])]
    D_app := [("package", []), ("title", []), ("movie", []),
              ("preview", []), ("poster", [])]
    D_content := [("movie", "a.mpg"), ("preview", "b.mpg"), ("poster", "c.jpg")]
    has_preview := true, has_poster := true
    is_update := false, is_delete := false }

/-- A file system on which every referenced file exists. -/
def fsAll : FileSys :=
  { isfile := fun _ => true, getsize := fun _ => 100, md5sum := fun _ => "abc123" }

/-- C2 (code bug): `check_files` succeeds on `pC2`, but every scanner call —
the supposedly per-section movie scan, preview scan and poster scan — is
passed `pkg/c.jpg`, the path bound by the *last* loop iteration (the poster
file), not each section's own content file `pkg/a.mpg` / `pkg/b.mpg` /
`pkg/c.jpg`. -/
theorem C2_check_files_scans_last_file :
    (checkFiles fsAll pC2).map (fun r => r.2) =
      Except.ok [ProbeCall.video "movie" "pkg/c.jpg",
                 ProbeCall.video "preview" "pkg/c.jpg",
                 ProbeCall.image "pkg/c.jpg"] ∧
    dictGet pC2.D_content "movie" = some "a.mpg" ∧
    pathJoin (splitDir pC2.xml_path) "a.mpg" = "pkg/a.mpg" ∧
    dictGet pC2.D_content "preview" = some "b.mpg" ∧
    pathJoin (splitDir pC2.xml_path) "b.mpg" = "pkg/b.mpg" ∧
    ("pkg/c.jpg" : String) ≠ "pkg/a.mpg" ∧
    ("pkg/c.jpg" : String) ≠ "pkg/b.mpg" := by
  refine ⟨?_, by decide, by decide, by decide, by decide, by decide, by decide⟩
  rfl

theorem findCharIdx_append (l1 l2 : List Char) (c : Char) (h : c ∉ l1) :
    findCharIdx (l1 ++ c :: l2) c = (l1.length : Int) := by
  induction l1 with
  | nil => simp [findCharIdx]
  | cons c1 cs ih =>
      simp only [List.mem_cons] at h
      push_neg at h
      have h1 : ¬ c1 = c := fun he => h.1 he.symm
      have ihv := ih h.2
      rw [show findCharIdx ((c1 :: cs) ++ c :: l2) c =
        (if c1 = c then 0 else
          if findCharIdx (cs ++ c :: l2) c < 0 then -1
          else findCharIdx (cs ++ c :: l2) c + 1) from rfl]
      rw [if_neg h1, ihv, if_neg (by omega)]
      simp

theorem pySliceFrom_append (s : String) (l1 l2 : List Char)
    (h : s.toList = l1 ++ l2) :
    pySliceFrom s (l1.length : Int) = String.mk l2 := by
  have hnn : ¬ ((l1.length : Int) < 0) := by omega
  rw [show pySliceFrom s (l1.length : Int) =
    String.mk (s.toList.drop
      (max 0 (if (l1.length : Int) < 0 then (s.toList.length : Int) + l1.length
        else (l1.length : Int))).toNat) from rfl]
  rw [if_neg hnn]
  have hmax : (max 0 (l1.length : Int)).toNat = l1.length := by omega
  rw [hmax, h, List.drop_left]

/-- C6 counterexample: the codec mapping applied to commercial name `"AVC"`
and format profile `"High@L4.0"` stores `Codec = "AVC HP@L40"` — the profile
part is the single first character and the level part keeps the `"@"` — not
`"AVC HighPL40"` as the claim's example asserts. -/
theorem C6_counterexample :
    scanCodec "AVC" "High@L4.0" "movie.mpg" = Except.ok "AVC HP@L40" ∧
    "AVC HP@L40" ≠ "AVC HighPL40" :=
  ⟨rfl, by decide⟩

/-- C6 (amended): commercial name `"MPEG-2 Video"` stores `Codec = "MPEG2"`;
commercial name `"AVC"` with format profile `p = l1 ++ "@" ++ l2` (first
`"@"` at the end of `l1`, `p` nonempty with first character `c`) stores
`Codec = "AVC {c}P{level}"` where the level is the substring of `p` from the
`"@"` character onward — the `"@"` included — with every `"."` removed; any
other commercial name fails with the unrecognized-codec (`InvalidMpeg`)
error.  In particular `"High@L4.0"` yields `"AVC HP@L40"` (not
`"AVC HighPL40"`), and commercial name `"Unknown"` fails. -/
theorem C6_codec_mapping (contentName profile : String)
    (c : Char) (cs l1 l2 : List Char)
    (hhead : profile.toList = c :: cs)
    (hsplit : profile.toList = l1 ++ '@' :: l2)
    (hno : '@' ∉ l1) :
    scanCodec "MPEG-2 Video" profile contentName = Except.ok "MPEG2" ∧
    scanCodec "AVC" profile contentName =
      Except.ok ("AVC " ++ String.mk [c] ++ "P" ++
        String.mk (('@' :: l2).filter (fun ch => ¬ ch = '.'))) ∧
    (∀ nm, nm ≠ "MPEG-2 Video" → nm ≠ "AVC" →
      scanCodec nm profile contentName =
        Except.error (PyError.invalidMpeg
          ("Could not determine codec for " ++ contentName))) ∧
    scanCodec "AVC" "High@L4.0" contentName = Except.ok "AVC HP@L40" ∧
    scanCodec "Unknown" profile contentName =
      Except.error (PyError.invalidMpeg
        ("Could not determine codec for " ++ contentName)) := by
  have hfind : pyFindChar profile '@' = (l1.length : Int) := by
    rw [pyFindChar, hsplit]
    exact findCharIdx_append l1 l2 '@' hno
  have hslice : pySliceFrom profile (pyFindChar profile '@') = String.mk ('@' :: l2) := by
    rw [hfind]
    exact pySliceFrom_append profile l1 ('@' :: l2) hsplit
  have havc : scanCodec "AVC" profile contentName =
      Except.ok ("AVC " ++ String.mk [c] ++ "P" ++
        String.mk (('@' :: l2).filter (fun ch => ¬ ch = '.'))) := by
    rw [show scanCodec "AVC" profile contentName =
      (match profile.toList with
       | [] => Except.error (PyError.indexError "string index out of range")
       | c :: _ =>
           Except.ok ("AVC " ++ String.mk [c] ++ "P" ++
             removeDots (pySliceFrom profile (pyFindChar profile '@')))) from rfl]
    rw [hhead]
    rw [show (match (c :: cs : List Char) with
       | [] => Except.error (PyError.indexError "string index out of range")
       | c :: _ =>
           Except.ok ("AVC " ++ String.mk [c] ++ "P" ++
             removeDots (pySliceFrom profile (pyFindChar profile '@')))) =
      Except.ok ("AVC " ++ String.mk [c] ++ "P" ++
        removeDots (pySliceFrom profile (pyFindChar profile '@'))) from rfl]
    rw [hslice]
    rfl
  refine ⟨rfl, havc, ?_, rfl, ?_⟩
  · intro nm h1 h2
    rw [scanCodec, if_neg h1, if_neg h2]
  · rfl

/-- Witness for C6 at format profile `"High@L4.0"` (so `l1 = "High"`,
`l2 = "L4.0"`): the AVC mapping produces `"AVC HP@L40"` and the `"Unknown"`
commercial name fails with the unrecognized-codec error. -/
theorem C6_codec_mapping_witness :
    scanCodec "MPEG-2 Video" "High@L4.0" "m.mpg" = Except.ok "MPEG2" ∧
    scanCodec "AVC" "High@L4.0" "m.mpg" =
      Except.ok ("AVC " ++ String.mk ['H'] ++ "P" ++
        String.mk (('@' :: "L4.0".toList).filter (fun ch => ¬ ch = '.'))) ∧
    scanCodec "Unknown" "High@L4.0" "m.mpg" =
      Except.error (PyError.invalidMpeg "Could not determine codec for m.mpg") := by
  obtain ⟨h1, h2, h3, _, _⟩ :=
    C6_codec_mapping "m.mpg" "High@L4.0" 'H' "igh@L4.0".toList "High".toList
      "L4.0".toList (by decide) (by decide) (by decide)
  exact ⟨h1, h2, h3 "Unknown" (by decide) (by decide)⟩

theorem pyGet_cases {α : Type} (d : Dict α) (k : String) :
    pyGet d k = Except.error (PyError.keyError k) ∨ ∃ v, pyGet d k = Except.ok v := by
  cases h : dictGet d k with
  | none => left; simp [pyGet, h]
  | some v => right; exact ⟨v, by simp [pyGet, h]⟩

theorem assetStep_cases (skip : List String) (product : String) (p : VodPackage)
    (acc : List (String × AssetOut)) (t : String) :
    (∃ e, assetStep skip product p acc t = Except.error (PyError.keyError e)) ∨
    ∃ r, assetStep skip product p acc t = Except.ok r := by
  rw [assetStep]
  cases dictGet p.D_ams t with
  | none => right; exact ⟨acc, rfl⟩
  | some aeAms =>
      cases dictGet p.D_app t with
      | none => left; exact ⟨t, rfl⟩
      | some aeApp => right; exact ⟨_, rfl⟩

theorem foldlM_assetStep_no_missing (skip : List String) (product : String)
    (p : VodPackage) (m : String) :
    ∀ (ts : List String) (acc : List (String × AssetOut)),
      ts.foldlM (assetStep skip product p) acc ≠
        Except.error (PyError.missingElement m) := by
  intro ts
  induction ts with
  | nil => intro acc h; simp [List.foldlM, pure, Except.pure] at h
  | cons t ts ih =>
      intro acc h
      rw [List.foldlM_cons] at h
      rcases assetStep_cases skip product p acc t with ⟨e, he⟩ | ⟨r, hr⟩
      · rw [he] at h
        simp [bind, Except.bind] at h
      · rw [hr] at h
        simp only [bind, Except.bind] at h
        exact ih r h

/-- `write_xml` after the movie check never raises `MissingElement`: every
other failure is a `KeyError` on a malformed map. -/
theorem writeXmlBody_no_missing (skip : List String) (p : VodPackage) (m : String) :
    writeXmlBody skip p ≠ Except.error (PyError.missingElement m) := by
  rw [writeXmlBody]
  rcases pyGet_cases p.D_ams "package" with h1 | ⟨pkgAms, h1⟩ <;>
    simp only [h1, bind, Except.bind]
  · simp
  rcases pyGet_cases pkgAms "Product" with h2 | ⟨product, h2⟩ <;>
    simp only [h2, Except.bind]
  · simp
  rcases pyGet_cases p.D_app "package" with h3 | ⟨pkgApp, h3⟩ <;>
    simp only [h3, Except.bind]
  · simp
  rcases pyGet_cases p.D_ams "title" with h4 | ⟨titleAms, h4⟩ <;>
    simp only [h4, Except.bind]
  · simp
  rcases pyGet_cases p.D_app "title" with h5 | ⟨titleApp, h5⟩ <;>
    simp only [h5, Except.bind]
  · simp
  intro h
  rcases hf : ["movie", "preview", "poster"].foldlM (assetStep skip product p) [] with e | assets
  · rw [hf] at h
    simp only [Except.bind] at h
    injection h with h
    rw [h] at hf
    exact foldlM_assetStep_no_missing skip product p m _ _ hf
  · rw [hf] at h
    simp [Except.bind, pure, Except.pure] at h

/-- C9: `write_xml` fails with the missing-element error exactly when the
movie section is absent from `D_ams`; the check is the first thing the
method does, before any output is built (on the absent side nothing of the
output is constructed), and a package with a movie section is never rejected
by this check — any later failure is a `KeyError`, not a `MissingElement`. -/
theorem C9_write_xml_requires_movie (skip : List String) (p : VodPackage) (m : String) :
    writeXml skip p = Except.error (PyError.missingElement m) ↔
      (dictGet p.D_ams "movie" = none ∧
        m = "Package does not specify a movie element") := by
  rw [writeXml]
  cases h : dictGet p.D_ams "movie" with
  | none =>
      simp only [h, Option.isSome_none, Bool.false_eq_true, if_false]
      constructor
      · intro he
        injection he with he
        injection he with he
        exact ⟨trivial, he.symm⟩
      · rintro ⟨_, rfl⟩
        rfl
  | some v =>
      simp only [h, Option.isSome_some, if_true]
      constructor
      · intro he
        exact absurd he (writeXmlBody_no_missing skip p m)
      · rintro ⟨hc, _⟩
        cases hc

/-! ## Lemmas about the App_Data serializer -/

theorem mem_of_dictGet {α : Type} (d : Dict α) (k : String) (v : α)
    (h : dictGet d k = some v) : (k, v) ∈ d := by
  induction d with
  | nil => simp at h
  | cons hd rest ih =>
      obtain ⟨k1, v1⟩ := hd
      by_cases h1 : k1 = k
      · subst h1
        rw [dictGet_cons, if_pos rfl] at h
        injection h with h
        subst h
        exact List.mem_cons_self _ _
      · rw [dictGet_cons, if_neg h1] at h
        exact List.mem_cons_of_mem _ (ih h)

theorem sortByKey_perm {α : Type} (d : Dict α) : (sortByKey d).Perm d :=
  List.mergeSort_perm d _

theorem dictKeys_sortByKey_nodup {α : Type} (d : Dict α)
    (h : (dictKeys d).Nodup) : (dictKeys (sortByKey d)).Nodup := by
  have hp : (dictKeys (sortByKey d)).Perm (dictKeys d) :=
    (sortByKey_perm d).map Prod.fst
  exact hp.nodup_iff.mpr h

theorem dictGet_sortByKey {α : Type} (d : Dict α) (h : (dictKeys d).Nodup)
    (k : String) : dictGet (sortByKey d) k = dictGet d k := by
  cases hg : dictGet d k with
  | none =>
      apply dictGet_eq_none_of_not_mem_keys
      intro hmem
      have hmem2 : k ∈ dictKeys d :=
        ((sortByKey_perm d).map Prod.fst).mem_iff.mp hmem
      have := dictGet_isSome_of_mem_keys d k hmem2
      rw [hg] at this
      simp at this
  | some v =>
      exact dictGet_of_mem_of_nodup _ _ _
        ((sortByKey_perm d).mem_iff.mpr (mem_of_dictGet d k v hg))
        (dictKeys_sortByKey_nodup d h)

theorem sortByKey_pairwise {α : Type} (d : Dict α) :
    (sortByKey d).Pairwise (fun a b => a.1 ≤ b.1) := by
  have h := @List.sorted_mergeSort (String × α)
    (fun a b => decide (a.1 ≤ b.1))
    (by intro a b c hab hbc; simp only [decide_eq_true_eq] at *; exact le_trans hab hbc)
    (by intro a b; simpa using le_total a.1 b.1)
    d
  refine h.imp ?_
  intro a b hab
  simpa using hab

theorem filter_flatMap_blocks (l : List (String × AppValue)) (k : String)
    (f : String × AppValue → List AppDataElem)
    (hname : ∀ kv e, e ∈ f kv → e.name = kv.1)
    (hnd : (dictKeys l).Nodup) :
    (l.flatMap f).filter (fun e => e.name = k) =
      match dictGet l k with
      | some v => f (k, v)
      | none => [] := by
  induction l with
  | nil => rfl
  | cons hd rest ih =>
      obtain ⟨k1, v1⟩ := hd
      simp only [dictKeys, List.map_cons, List.nodup_cons] at hnd
      rw [List.flatMap_cons, List.filter_append]
      by_cases h1 : k1 = k
      · subst h1
        have hval : (f (k1, v1)).filter (fun e => decide (e.name = k1)) = f (k1, v1) := by
          apply List.filter_eq_self.mpr
          intro e he
          simpa using hname (k1, v1) e he
        have hnone : dictGet rest k1 = none := by
          apply dictGet_eq_none_of_not_mem_keys
          simpa [dictKeys] using hnd.1
        have hrest : (rest.flatMap f).filter (fun e => decide (e.name = k1)) = [] := by
          rw [ih (by simpa [dictKeys] using hnd.2), hnone]
        rw [show (fun e : AppDataElem => decide (e.name = k1)) =
          (fun e : AppDataElem => e.name = k1) from rfl] at hval hrest
        rw [hval, hrest, dictGet_cons, if_pos rfl]
        simp
      · have hval : (f (k1, v1)).filter (fun e => decide (e.name = k)) = [] := by
          rw [List.filter_eq_nil_iff]
          intro e he
          have := hname (k1, v1) e he
          simp [this, h1]
        rw [show (fun e : AppDataElem => decide (e.name = k)) =
          (fun e : AppDataElem => e.name = k) from rfl] at hval
        rw [hval, ih (by simpa [dictKeys] using hnd.2), dictGet_cons, if_neg h1]
        simp

/-- Per-key characterization of the emitted `App_Data` elements. -/
theorem appDataElems_filter (skip : List String) (product : String)
    (D : Dict AppValue) (hnd : (dictKeys D).Nodup) (k : String) :
    (appDataElems skip product D).filter (fun e => e.name = k) =
      match dictGet D k with
      | none => []
      | some v =>
          if k ∈ skip then []
          else if k ∈ multiples then
            v.iter.map (fun s => { app := product, name := k, value := s })
          else [{ app := product, name := k, value := v.str }] := by
  rw [appDataElems, filter_flatMap_blocks _ k _ ?hname (dictKeys_sortByKey_nodup D hnd),
    dictGet_sortByKey D hnd k]
  case hname =>
    intro kv e he
    by_cases h1 : kv.1 ∈ skip
    · simp [h1] at he
    · by_cases h2 : kv.1 ∈ multiples
      · simp only [h1, h2, if_false, if_true] at he
        rcases List.mem_map.mp he with ⟨s, _, rfl⟩
        rfl
      · simp only [h1, h2, if_false] at he
        rcases List.mem_singleton.mp he with rfl
        rfl
  cases dictGet D k with
  | none => rfl
  | some v => rfl

theorem appDataElems_app (skip : List String) (product : String)
    (D : Dict AppValue) (e : AppDataElem)
    (he : e ∈ appDataElems skip product D) : e.app = product := by
  rw [appDataElems] at he
  rcases List.mem_flatMap.mp he with ⟨kv, _, he2⟩
  by_cases h1 : kv.1 ∈ skip
  · simp [h1] at he2
  · by_cases h2 : kv.1 ∈ multiples
    · simp only [h1, h2, if_false, if_true] at he2
      rcases List.mem_map.mp he2 with ⟨s, _, rfl⟩
      rfl
    · simp only [h1, h2, if_false] at he2
      rcases List.mem_singleton.mp he2 with rfl
      rfl

theorem pairwise_of_mem_rel {β : Type} {R : β → β → Prop} (l : List β)
    (h : ∀ e1 ∈ l, ∀ e2 ∈ l, R e1 e2) : l.Pairwise R := by
  induction l with
  | nil => exact List.Pairwise.nil
  | cons b bs ih =>
      constructor
      · intro e he
        exact h b (List.mem_cons_self _ _) e (List.mem_cons_of_mem _ he)
      · exact ih (fun e1 h1 e2 h2 =>
          h e1 (List.mem_cons_of_mem _ h1) e2 (List.mem_cons_of_mem _ h2))

theorem appDataElems_sorted (skip : List String) (product : String)
    (D : Dict AppValue) :
    (appDataElems skip product D).Pairwise (fun e1 e2 => e1.name ≤ e2.name) := by
  have hname : ∀ kv (e : AppDataElem),
      e ∈ (fun kv : String × AppValue =>
        if kv.1 ∈ skip then []
        else if kv.1 ∈ multiples then
          kv.2.iter.map (fun v => { app := product, name := kv.1, value := v })
        else [{ app := product, name := kv.1, value := kv.2.str }]) kv →
      e.name = kv.1 := by
    intro kv e he
    by_cases h1 : kv.1 ∈ skip
    · simp [h1] at he
    · by_cases h2 : kv.1 ∈ multiples
      · simp only [h1, h2, if_false, if_true] at he
        rcases List.mem_map.mp he with ⟨s, _, rfl⟩
        rfl
      · simp only [h1, h2, if_false] at he
        rcases List.mem_singleton.mp he with rfl
        rfl
  rw [appDataElems, List.pairwise_flatMap]
  constructor
  · intro kv _
    apply pairwise_of_mem_rel
    intro e1 h1 e2 h2
    rw [hname kv e1 h1, hname kv e2 h2]
  · refine (sortByKey_pairwise D).imp ?_
    intro kv1 kv2 h12 x hx y hy
    rw [hname kv1 x hx, hname kv2 y hy]
    exact h12

/-- `VodPackage._write_App_Data` as invoked on one section: look up the
section's App_Data map and the package `Product`, then emit the elements.
(Python looks `Product` up per element; see `appDataElems`.) -/
def writeAppDataFor (skip : List String) (p : VodPackage) (aeType : String) :
    Except PyError (List AppDataElem) := do
  let appD ← pyGet p.D_app aeType
  let pkg ← pyGet p.D_ams "package"
  let product ← pyGet pkg "Product"
  pure (appDataElems skip product appD)

/-- C5: the `App_Data` elements `_write_App_Data` emits for a section are in
lexicographic key order; every element's `App` attribute equals the package
section's `Product` AMS attribute; a multi-valued key not in the skip list
emits one element per stored sequence entry, in sequence order; and a key in
the configured skip list is never emitted, multi-valued or not. -/
theorem C5_write_app_data (skip : List String) (p : VodPackage) (aeType : String)
    (appD : Dict AppValue) (pkg : Dict String) (product : String)
    (h1 : dictGet p.D_app aeType = some appD)
    (h2 : dictGet p.D_ams "package" = some pkg)
    (h3 : dictGet pkg "Product" = some product)
    (hnd : (dictKeys appD).Nodup) :
    ∃ es, writeAppDataFor skip p aeType = Except.ok es ∧
      es.Pairwise (fun e1 e2 => e1.name ≤ e2.name) ∧
      (∀ e ∈ es, e.app = product) ∧
      (∀ k l, k ∈ multiples → k ∉ skip →
        dictGet appD k = some (AppValue.multi l) →
        (es.filter (fun e => e.name = k)).map (fun e => e.value) = l) ∧
      (∀ k, k ∈ skip → es.filter (fun e => e.name = k) = []) := by
  refine ⟨appDataElems skip product appD, ?_,
    appDataElems_sorted skip product appD,
    fun e he => appDataElems_app skip product appD e he, ?_, ?_⟩
  · rw [writeAppDataFor]
    rw [show pyGet p.D_app aeType = Except.ok appD by simp [pyGet, h1]]
    show (do
      let pkg2 ← pyGet p.D_ams "package"
      let product2 ← pyGet pkg2 "Product"
      pure (appDataElems skip product2 appD) : Except PyError _) = _
    rw [show pyGet p.D_ams "package" = Except.ok pkg by simp [pyGet, h2]]
    show (do
      let product2 ← pyGet pkg "Product"
      pure (appDataElems skip product2 appD) : Except PyError _) = _
    rw [show pyGet pkg "Product" = Except.ok product by simp [pyGet, h3]]
    rfl
  · intro k l hk hns hv
    rw [appDataElems_filter skip product appD hnd k, hv]
    simp only [if_neg hns, if_pos hk, AppValue.iter]
    rw [List.map_map]
    rw [show ((fun e : AppDataElem => e.value) ∘
      fun s => { app := product, name := k, value := s : AppDataElem }) =
        fun s => s from rfl]
    exact List.map_id' l
  · intro k hk
    rw [appDataElems_filter skip product appD hnd k]
    cases dictGet appD k with
    | none => rfl
    | some v => simp [if_pos hk]

/-- Witness for C5 at a concrete section whose App_Data holds a three-entry
`Genre` sequence, a plain key, and a skip-listed key. -/
theorem C5_write_app_data_witness :
    ∃ es, writeAppDataFor ["Skip_Me"]
        { xml_path := "pkg/x.xml"
          D_ams := [("package", [("Product", "MOD")]), ("title", []), ("movie", [])]
          D_app := [("movie",
            [("Genre", AppValue.multi ["A", "B", "C"]),
             ("Title_Brief", AppValue.single "T"),
             ("Skip_Me", AppValue.single "S")])]
          D_content := [], has_preview := false, has_poster := false
          is_update := false, is_delete := false } "movie" = Except.ok es ∧
      es.Pairwise (fun e1 e2 => e1.name ≤ e2.name) ∧
      (∀ e ∈ es, e.app = "MOD") ∧
      ((es.filter (fun e => e.name = "Genre")).map (fun e => e.value) = ["A", "B", "C"]) ∧
      es.filter (fun e => e.name = "Skip_Me") = [] := by
  obtain ⟨es, h1, h2, h3, h4, h5⟩ :=
    C5_write_app_data ["Skip_Me"]
      { xml_path := "pkg/x.xml"
        D_ams := [("package", [("Product", "MOD")]), ("title", []), ("movie", [])]
        D_app := [("movie",
          [("Genre", AppValue.multi ["A", "B", "C"]),
           ("Title_Brief", AppValue.single "T"),
           ("Skip_Me", AppValue.single "S")])]
        D_content := [], has_preview := false, has_poster := false
        is_update := false, is_delete := false } "movie"
      [("Genre", AppValue.multi ["A", "B", "C"]),
       ("Title_Brief", AppValue.single "T"),
       ("Skip_Me", AppValue.single "S")]
      [("Product", "MOD")] "MOD"
      (by decide) (by decide) (by decide) (by decide)
  exact ⟨es, h1, h2, h3,
    h4 "Genre" ["A", "B", "C"] (by decide) (by decide) (by decide),
    h5 "Skip_Me" (by decide)⟩

/-! ## Flag invariants (claim C8) -/

theorem loadFold_preserve (c : String) :
    ∀ (assets : List AssetXml)
      (st st1 : Dict (Dict String) × Dict (Dict AppValue) × Dict String),
      (∀ a ∈ assets, dictGet a.ams "Asset_Class" ≠ some c) →
      assets.foldlM loadStep st = Except.ok st1 →
      dictGet st1.1 c = dictGet st.1 c ∧
        dictGet st1.2.1 c = dictGet st.2.1 c ∧
        dictGet st1.2.2 c = dictGet st.2.2 c := by
  intro assets
  induction assets with
  | nil =>
      intro st st1 _ h
      simp only [List.foldlM_nil, pure, Except.pure] at h
      injection h with h
      subst h
      exact ⟨rfl, rfl, rfl⟩
  | cons a rest ih =>
      intro st st1 hcl hok
      rw [List.foldlM_cons] at hok
      cases hstep : loadStep st a with
      | error e =>
          rw [hstep] at hok
          simp [bind, Except.bind] at hok
      | ok st2 =>
          rw [hstep] at hok
          simp only [bind, Except.bind] at hok
          have hrest := ih st2 st1 (fun a2 h2 => hcl a2 (List.mem_cons_of_mem _ h2)) hok
          rw [loadStep] at hstep
          cases hac : dictGet a.ams "Asset_Class" with
          | none =>
              rw [hac] at hstep
              exact absurd hstep (by simp)
          | some t =>
              rw [hac] at hstep
              injection hstep with hstep
              have htc : t ≠ c := fun he => hcl a (List.mem_cons_self _ _) (he ▸ hac)
              obtain ⟨h1, h2, h3⟩ := hrest
              subst hstep
              refine ⟨?_, ?_, ?_⟩
              · rw [h1]
                exact dictGet_dictSet_ne _ _ _ _ htc
              · rw [h2]
                exact dictGet_dictSet_ne _ _ _ _ htc
              · rw [h3]
                cases a.content with
                | some v =>
                    exact dictGet_dictSet_ne _ _ _ _ htc
                | none => rfl

theorem load_ok_elim (x : AdiXml) (p : VodPackage) (h : load x = Except.ok p) :
    ∃ st1 pkgE vm,
      x.assets.foldlM loadStep (amsInit x, appInit x, ([] : Dict String)) =
        Except.ok st1 ∧
      dictGet st1.1 "package" = some pkgE ∧
      dictGet pkgE "Version_Major" = some vm ∧
      p = { xml_path := x.xmlPath
            D_ams := st1.1, D_app := st1.2.1, D_content := st1.2.2
            has_preview := (dictGet st1.1 "preview").isSome
            has_poster := (dictGet st1.1 "poster").isSome
            is_update := vm != "1"
            is_delete := (dictGet x.pkgAms "Verb").getD "" == "DELETE" } := by
  rw [load] at h
  cases hf : x.assets.foldlM loadStep (amsInit x, appInit x, ([] : Dict String)) with
  | error e =>
      rw [hf] at h
      simp [bind, Except.bind] at h
  | ok st1 =>
      rw [hf] at h
      simp only [bind, Except.bind] at h
      cases hpkg : dictGet st1.1 "package" with
      | none =>
          rw [show pyGet st1.1 "package" = Except.error (PyError.keyError "package")
            by simp [pyGet, hpkg]] at h
          simp [Except.bind] at h
      | some pkgE =>
          rw [show pyGet st1.1 "package" = Except.ok pkgE by simp [pyGet, hpkg]] at h
          simp only [Except.bind] at h
          cases hvm : dictGet pkgE "Version_Major" with
          | none =>
              rw [show pyGet pkgE "Version_Major" =
                Except.error (PyError.keyError "Version_Major")
                by simp [pyGet, hvm]] at h
              simp [Except.bind] at h
          | some vm =>
              rw [show pyGet pkgE "Version_Major" = Except.ok vm
                by simp [pyGet, hvm]] at h
              simp only [Except.bind, pure, Except.pure] at h
              injection h with h
              exact ⟨st1, pkgE, vm, rfl, hpkg, hvm, h.symm⟩

/-- After a successful construction the cached flags agree with the package
AMS map, provided no nested asset is (mis)classified as `"package"`. -/
theorem load_invFlags (x : AdiXml) (p : VodPackage)
    (hnp : ∀ a ∈ x.assets, dictGet a.ams "Asset_Class" ≠ some "package")
    (h : load x = Except.ok p) : invFlags p := by
  obtain ⟨st1, pkgE, vm, hf, hpkg, hvm, hp⟩ := load_ok_elim x p h
  have hpres := (loadFold_preserve "package" x.assets _ _ hnp hf).1
  have hbase : dictGet (amsInit x) "package" = some x.pkgAms := by
    rw [amsInit, dictGet_dictSet_ne _ _ _ _ (by decide)]
    exact dictGet_dictSet_self _ _ _
  have hpkgE : pkgE = x.pkgAms := by
    rw [hpkg, hbase] at hpres
    injection hpres
  subst hp
  constructor
  · show (vm != "1") = true ↔
      dictGet ((dictGet st1.1 "package").getD []) "Version_Major" ≠ some "1"
    rw [hpkg]
    show (vm != "1") = true ↔ dictGet pkgE "Version_Major" ≠ some "1"
    rw [hvm]
    simp [bne_iff_ne]
  · show ((dictGet x.pkgAms "Verb").getD "" == "DELETE") = true ↔
      (dictGet ((dictGet st1.1 "package").getD []) "Verb").getD "" = "DELETE"
    rw [hpkg]
    show ((dictGet x.pkgAms "Verb").getD "" == "DELETE") = true ↔
      (dictGet pkgE "Verb").getD "" = "DELETE"
    rw [hpkgE]
    simp [beq_iff_eq]

/-- The result state of a remove operation, on success or failure. -/
def remState : Except (PyError × VodPackage) VodPackage → VodPackage
  | Except.ok q => q
  | Except.error (_, q) => q

theorem invFlags_congr (p q : VodPackage)
    (hams : dictGet q.D_ams "package" = dictGet p.D_ams "package")
    (hu : q.is_update = p.is_update) (hd : q.is_delete = p.is_delete)
    (h : invFlags p) : invFlags q := by
  unfold invFlags pkgAmsOf at h ⊢
  rw [hams, hu, hd]
  exact h

theorem invFlags_remState_removeAe (p : VodPackage) (t : String)
    (ht : t ≠ "package") (h : invFlags p) :
    invFlags (remState (removeAe p t)) := by
  have hdel : dictGet (dictDel p.D_ams t) "package" = dictGet p.D_ams "package" :=
    dictGet_dictDel_ne _ _ _ ht
  rw [removeAe]
  by_cases h1 : (dictGet p.D_ams t).isNone
  · rw [if_pos h1]
    exact h
  · rw [if_neg h1]
    by_cases h2 : (dictGet p.D_app t).isNone
    · rw [if_pos h2]
      exact invFlags_congr p _ hdel rfl rfl h
    · rw [if_neg h2]
      by_cases h3 : (dictGet p.D_content t).isNone
      · rw [if_pos h3]
        exact invFlags_congr p _ hdel rfl rfl h
      · rw [if_neg h3]
        exact invFlags_congr p _ hdel rfl rfl h

theorem invFlags_remState_removePreview (p : VodPackage) (h : invFlags p) :
    invFlags (remState (removePreview p)) := by
  have hbase := invFlags_remState_removeAe p "preview" (by decide) h
  rw [removePreview]
  cases hr : removeAe p "preview" with
  | ok q =>
      rw [hr] at hbase
      exact invFlags_congr q _ rfl rfl rfl hbase
  | error e =>
      rw [hr] at hbase
      exact hbase

theorem invFlags_remState_removePoster (p : VodPackage) (h : invFlags p) :
    invFlags (remState (removePoster p)) := by
  have hbase := invFlags_remState_removeAe p "poster" (by decide) h
  rw [removePoster]
  cases hr : removeAe p "poster" with
  | ok q =>
      rw [hr] at hbase
      exact invFlags_congr q _ rfl rfl rfl hbase
  | error e =>
      rw [hr] at hbase
      exact hbase

theorem foldl_cfStep_error (fs : FileSys) (aeDir : String)
    (entries : List (String × String)) (e : PyError × VodPackage) :
    entries.foldl (cfStep fs aeDir) (Except.error e) = Except.error e := by
  induction entries with
  | nil => rfl
  | cons kv rest ih => simpa [cfStep] using ih

/-- The `check_files` loop only rewrites `D_app`: the section map, the flags
and everything else are carried through on every path. -/
theorem cfFold_preserve (fs : FileSys) (aeDir : String) :
    ∀ (entries : List (String × String)) (q0 : VodPackage) (lp : Option String),
      (match entries.foldl (cfStep fs aeDir) (Except.ok (q0, lp)) with
       | Except.ok (q, _) =>
           q.D_ams = q0.D_ams ∧ q.is_update = q0.is_update ∧ q.is_delete = q0.is_delete
       | Except.error (_, q) =>
           q.D_ams = q0.D_ams ∧ q.is_update = q0.is_update ∧ q.is_delete = q0.is_delete) := by
  intro entries
  induction entries with
  | nil => intro q0 lp; exact ⟨rfl, rfl, rfl⟩
  | cons kv rest ih =>
      intro q0 lp
      rw [List.foldl_cons]
      by_cases hf : fs.isfile (pathJoin aeDir kv.2) = false
      · rw [show cfStep fs aeDir (Except.ok (q0, lp)) kv =
          Except.error (PyError.missingElement
            ("Package's " ++ kv.1 ++ " element is missing - " ++ pathJoin aeDir kv.2),
            q0) by simp [cfStep, hf]]
        rw [foldl_cfStep_error]
        exact ⟨rfl, rfl, rfl⟩
      · cases happ : dictGet q0.D_app kv.1 with
        | none =>
            rw [show cfStep fs aeDir (Except.ok (q0, lp)) kv =
              Except.error (PyError.keyError kv.1, q0) by simp [cfStep, hf, happ]]
            rw [foldl_cfStep_error]
            exact ⟨rfl, rfl, rfl⟩
        | some app =>
            have hstep : cfStep fs aeDir (Except.ok (q0, lp)) kv =
                Except.ok
                  ({ q0 with
                      D_app := dictSet q0.D_app kv.1
                        (dictSet
                          (dictSet app "Content_FileSize"
                            (AppValue.single (pyStr (fs.getsize (pathJoin aeDir kv.2)))))
                          "Content_CheckSum"
                          (AppValue.single (fs.md5sum (pathJoin aeDir kv.2)))) },
                    some (pathJoin aeDir kv.2)) := by
              simp [cfStep, hf, happ]
            rw [hstep]
            exact ih _ _

/-- `check_files` preserves the flag invariants: whatever the outcome, the
package it hands back differs from the input only in `D_app`. -/
theorem invFlags_checkFiles (fs : FileSys) (p : VodPackage) (h : invFlags p) :
    (∀ q calls, checkFiles fs p = Except.ok (q, calls) → invFlags q) ∧
    (∀ e q, checkFiles fs p = Except.error (e, q) → invFlags q) := by
  have hp := cfFold_preserve fs (splitDir p.xml_path) p.D_content p none
  have main : ∀ q : VodPackage,
      q.D_ams = p.D_ams → q.is_update = p.is_update → q.is_delete = p.is_delete →
      invFlags q := by
    intro q h1 h2 h3
    exact invFlags_congr p q (by rw [h1]) h2 h3 h
  constructor
  · intro q calls hq
    rw [checkFiles] at hq
    cases hfold : p.D_content.foldl (cfStep fs (splitDir p.xml_path))
        (Except.ok (p, none)) with
    | error e =>
        rw [hfold] at hq
        exact absurd hq (by simp)
    | ok r =>
        obtain ⟨q1, lp⟩ := r
        rw [hfold] at hq hp
        cases lp with
        | none => exact absurd hq (by simp)
        | some aePath =>
            have hq2 : Except.ok (ε := PyError × VodPackage) (q1,
                [ProbeCall.video "movie" aePath]
                  ++ (if q1.has_preview then [ProbeCall.video "preview" aePath] else [])
                  ++ (if q1.has_poster then [ProbeCall.image aePath] else [])) =
                Except.ok (q, calls) := hq
            injection hq2 with hq2
            rw [Prod.mk.injEq] at hq2
            obtain ⟨hq3, -⟩ := hq2
            exact hq3 ▸ main q1 hp.1 hp.2.1 hp.2.2
  · intro e q hq
    rw [checkFiles] at hq
    cases hfold : p.D_content.foldl (cfStep fs (splitDir p.xml_path))
        (Except.ok (p, none)) with
    | error er =>
        obtain ⟨e1, q1⟩ := er
        rw [hfold] at hq hp
        have hq2 : Except.error (α := VodPackage × List ProbeCall) (e1, q1) =
            Except.error (e, q) := hq
        injection hq2 with hq2
        rw [Prod.mk.injEq] at hq2
        obtain ⟨-, hq3⟩ := hq2
        exact hq3 ▸ main q1 hp.1 hp.2.1 hp.2.2
    | ok r =>
        obtain ⟨q1, lp⟩ := r
        rw [hfold] at hq hp
        cases lp with
        | none =>
            have hq2 : Except.error (α := VodPackage × List ProbeCall)
                (PyError.nameError "ae_path", q1) = Except.error (e, q) := hq
            injection hq2 with hq2
            rw [Prod.mk.injEq] at hq2
            obtain ⟨-, hq3⟩ := hq2
            exact hq3 ▸ main q1 hp.1 hp.2.1 hp.2.2
        | some aePath => exact absurd hq (by simp)

theorem pyStr_inj (a b : Int) (h : pyStr a = pyStr b) : a = b := by
  have ha := pyInt?_pyStr a
  rw [h, pyInt?_pyStr b] at ha
  injection ha with ha
  exact ha.symm

theorem invFlags_makeDelete (p : VodPackage) (pkgAms : Dict String)
    (hnd : (dictKeys p.D_ams).Nodup)
    (hpkg : dictGet p.D_ams "package" = some pkgAms)
    (h : invFlags p) : invFlags (makeDelete p) := by
  rw [makeDelete_eq p hnd]
  have hget : dictGet (p.D_ams.map (fun kv => (kv.1, dictSet kv.2 "Verb" "DELETE")))
      "package" = some (dictSet pkgAms "Verb" "DELETE") := by
    have hmv := dictGet_map_value p.D_ams
      (fun ams => dictSet ams "Verb" "DELETE") "package"
    rw [hpkg] at hmv
    exact hmv
  constructor
  · show p.is_update = true ↔
      dictGet ((dictGet (p.D_ams.map (fun kv => (kv.1, dictSet kv.2 "Verb" "DELETE")))
        "package").getD []) "Version_Major" ≠ some "1"
    rw [hget]
    show p.is_update = true ↔
      dictGet (dictSet pkgAms "Verb" "DELETE") "Version_Major" ≠ some "1"
    rw [dictGet_dictSet_ne _ _ _ _ (by decide)]
    have h1 := h.1
    rw [show pkgAmsOf p = pkgAms by rw [pkgAmsOf, hpkg]; rfl] at h1
    exact h1
  · show true = true ↔
      (dictGet ((dictGet (p.D_ams.map (fun kv => (kv.1, dictSet kv.2 "Verb" "DELETE")))
        "package").getD []) "Verb").getD "" = "DELETE"
    rw [hget]
    show true = true ↔ (dictGet (dictSet pkgAms "Verb" "DELETE") "Verb").getD "" = "DELETE"
    rw [dictGet_dictSet_self]
    simp

theorem invFlags_makeUpdate (p : VodPackage) (pkgAms : Dict String)
    (v : String) (n : Int)
    (hnd : (dictKeys p.D_ams).Nodup)
    (hall : ∀ kv ∈ p.D_ams, ∃ v2 n2,
      dictGet kv.2 "Version_Major" = some v2 ∧ pyInt? v2 = some n2)
    (hpkg : dictGet p.D_ams "package" = some pkgAms)
    (hv : dictGet pkgAms "Version_Major" = some v)
    (hn : pyInt? v = some n) (hn0 : n ≠ 0)
    (h : invFlags p) :
    ∀ q, makeUpdate p = Except.ok q → invFlags q := by
  intro q hq
  rw [makeUpdate_ok p hnd hall] at hq
  injection hq with hq
  subst hq
  have hbump : bumpVersion pkgAms =
      Except.ok (dictSet pkgAms "Version_Major" (pyStr (n + 1))) :=
    bumpVersion_ok pkgAms v n hv hn
  have hget : dictGet (p.D_ams.map (fun kv => (kv.1, updApply bumpVersion kv.2)))
      "package" = some (dictSet pkgAms "Version_Major" (pyStr (n + 1))) := by
    have hmv := dictGet_map_value p.D_ams (updApply bumpVersion) "package"
    rw [hpkg] at hmv
    rw [hmv]
    show some (updApply bumpVersion pkgAms) = _
    simp [updApply, hbump]
  have hne1 : pyStr (n + 1) ≠ "1" := by
    intro he
    have : pyStr (n + 1) = pyStr 1 := by rw [he]; rfl
    have := pyStr_inj _ _ this
    omega
  constructor
  · show true = true ↔
      dictGet ((dictGet (p.D_ams.map (fun kv => (kv.1, updApply bumpVersion kv.2)))
        "package").getD []) "Version_Major" ≠ some "1"
    rw [hget]
    show true = true ↔
      dictGet (dictSet pkgAms "Version_Major" (pyStr (n + 1))) "Version_Major" ≠ some "1"
    rw [dictGet_dictSet_self]
    simp [hne1]
  · show p.is_delete = true ↔
      (dictGet ((dictGet (p.D_ams.map (fun kv => (kv.1, updApply bumpVersion kv.2)))
        "package").getD []) "Verb").getD "" = "DELETE"
    rw [hget]
    show p.is_delete = true ↔
      (dictGet (dictSet pkgAms "Version_Major" (pyStr (n + 1))) "Verb").getD "" = "DELETE"
    rw [dictGet_dictSet_ne _ _ _ _ (by decide)]
    have h2 := h.2
    rw [show pkgAmsOf p = pkgAms by rw [pkgAmsOf, hpkg]; rfl] at h2
    exact h2

/-- The source document refuting claim C8: package `Version_Major` is "0". -/
def c8adi : AdiXml :=
  { xmlPath := "pkg/x.xml"
    pkgAms := [("Version_Major", "0")], pkgAppData := []
    titleAms := [("Version_Major", "2")], titleAppData := []
    assets := [] }

/-- The package `load` builds from `c8adi`. -/
def c8p0 : VodPackage :=
  { xml_path := "pkg/x.xml"
    D_ams := [("package", [("Version_Major", "0")]), ("title", [("Version_Major", "2")])]
    D_app := [("package", []), ("title", [])]
    D_content := []
    has_preview := false, has_poster := false
    is_update := true, is_delete := false }

/-- The package `make_update` turns `c8p0` into. -/
def c8p1 : VodPackage :=
  { c8p0 with
    D_ams := [("package", [("Version_Major", "1")]), ("title", [("Version_Major", "3")])]
    D_content := []
    is_update := true }

/-- C8 counterexample: a constructed package with `Version_Major = "0"`
satisfies the invariants, but one `make_update` bumps the version to `"1"`
while unconditionally setting `is_update`, desyncing the cached flag from
the AMS map: afterwards `is_update` is true although `Version_Major = "1"`. -/
theorem C8_counterexample :
    load c8adi = Except.ok c8p0 ∧
    invFlags c8p0 ∧
    makeUpdate c8p0 = Except.ok c8p1 ∧
    c8p1.is_update = true ∧
    dictGet (pkgAmsOf c8p1) "Version_Major" = some "1" ∧
    ¬ invFlags c8p1 := by
  refine ⟨rfl, by decide, ?_, rfl, by decide, by decide⟩
  rfl

/-- C8 (amended): the invariants `is_update ⇔ package Version_Major ≠ "1"`
and `is_delete ⇔ package Verb == "DELETE"` hold after construction (when no
nested asset is classified `"package"`), and are preserved by
`remove_preview` and `remove_poster` (on success and on failure), by
`make_delete`, by `check_files` (on success and on failure), and by a
successful `make_update` whose sections' versions all parse, provided the
package section's `Version_Major` does not parse to the integer 0 — when it
does, `make_update` writes `"1"` while setting `is_update`, and the flag
desyncs (see the counterexample). -/
theorem C8_flag_invariants (x : AdiXml) (fs : FileSys) (p : VodPackage) :
    ((∀ a ∈ x.assets, dictGet a.ams "Asset_Class" ≠ some "package") →
      load x = Except.ok p → invFlags p) ∧
    (invFlags p → invFlags (remState (removePreview p))) ∧
    (invFlags p → invFlags (remState (removePoster p))) ∧
    (invFlags p → (dictKeys p.D_ams).Nodup →
      ∀ pkgAms, dictGet p.D_ams "package" = some pkgAms →
      invFlags (makeDelete p)) ∧
    (invFlags p → ∀ q calls, checkFiles fs p = Except.ok (q, calls) → invFlags q) ∧
    (invFlags p → ∀ e q, checkFiles fs p = Except.error (e, q) → invFlags q) ∧
    (invFlags p → (dictKeys p.D_ams).Nodup →
      (∀ kv ∈ p.D_ams, ∃ v2 n2,
        dictGet kv.2 "Version_Major" = some v2 ∧ pyInt? v2 = some n2) →
      ∀ pkgAms v n, dictGet p.D_ams "package" = some pkgAms →
        dictGet pkgAms "Version_Major" = some v → pyInt? v = some n → n ≠ 0 →
        ∀ q, makeUpdate p = Except.ok q → invFlags q) :=
  ⟨fun hnp hld => load_invFlags x p hnp hld,
   fun h => invFlags_remState_removePreview p h,
   fun h => invFlags_remState_removePoster p h,
   fun h hnd pkgAms hpkg => invFlags_makeDelete p pkgAms hnd hpkg h,
   fun h => (invFlags_checkFiles fs p h).1,
   fun h => (invFlags_checkFiles fs p h).2,
   fun h hnd hall pkgAms v n hpkg hv hn hn0 =>
     invFlags_makeUpdate p pkgAms v n hnd hall hpkg hv hn hn0 h⟩

/-- The source document for the C8 witness. -/
def c8wx : AdiXml :=
  { xmlPath := "pkg/x.xml"
    pkgAms := [("Version_Major", "3")], pkgAppData := []
    titleAms := [("Version_Major", "7")], titleAppData := []
    assets := [] }

/-- The package `load` builds from `c8wx`. -/
def c8wp : VodPackage :=
  { xml_path := "pkg/x.xml"
    D_ams := [("package", [("Version_Major", "3")]), ("title", [("Version_Major", "7")])]
    D_app := [("package", []), ("title", [])]
    D_content := []
    has_preview := false, has_poster := false
    is_update := true, is_delete := false }

/-- Witness for C8 at a concrete package (`Version_Major = "3"`): the
invariants hold after loading, and are preserved by a failing
`remove_preview`, by `make_delete` and by a `make_update` (3 ≠ 0). -/
theorem C8_flag_invariants_witness :
    invFlags c8wp ∧
    invFlags (remState (removePreview c8wp)) ∧
    invFlags (makeDelete c8wp) ∧
    ∀ q, makeUpdate c8wp = Except.ok q → invFlags q := by
  have hc := C8_flag_invariants c8wx
    { isfile := fun _ => true, getsize := fun _ => 7, md5sum := fun _ => "x" } c8wp
  have h0 : invFlags c8wp :=
    hc.1 (by intro a ha; simp [c8wx] at ha) rfl
  refine ⟨h0, hc.2.1 h0, ?_, ?_⟩
  · exact hc.2.2.2.1 h0 (by decide) [("Version_Major", "3")] (by decide)
  · refine hc.2.2.2.2.2.2 h0 (by decide) ?_
      [("Version_Major", "3")] "3" 3 (by decide) (by decide) (by decide) (by decide)
    intro kv hkv
    have hor : kv = ("package", [("Version_Major", "3")]) ∨
        kv = ("title", [("Version_Major", "7")]) := by
      simpa [c8wp] using hkv
    rcases hor with h | h
    · exact ⟨"3", 3, by rw [h]; decide, by decide⟩
    · exact ⟨"7", 7, by rw [h]; decide, by decide⟩

/-! ## Round trip (claim C1) -/

/-- The `Value`s carried by key `k` among a section's `(Name, Value)`
App_Data pairs, in document order. -/
def keyValues (items : List (String × String)) (k : String) : List String :=
  (items.filter (fun kv => kv.1 = k)).map Prod.snd

/-- The `Value`s of the emitted elements named `k`, in emission order. -/
def elemValues (es : List AppDataElem) (k : String) : List String :=
  (es.filter (fun e => e.name = k)).map (fun e => e.value)

theorem appInsert_get_ne (D : Dict AppValue) (e : String × String) (k : String)
    (h : e.1 ≠ k) : dictGet (appInsert D e) k = dictGet D k := by
  rw [appInsert]
  by_cases h1 : e.1 ∈ multiples
  · rw [if_pos h1]
    cases dictGet D e.1 with
    | none => exact dictGet_dictSet_ne _ _ _ _ h
    | some av =>
        cases av with
        | multi l => exact dictGet_dictSet_ne _ _ _ _ h
        | single s => exact dictGet_dictSet_ne _ _ _ _ h
  · rw [if_neg h1]
    exact dictGet_dictSet_ne _ _ _ _ h

theorem appInsert_eq_dictSet (D : Dict AppValue) (e : String × String) :
    ∃ v, appInsert D e = dictSet D e.1 v := by
  rw [appInsert]
  by_cases h1 : e.1 ∈ multiples
  · rw [if_pos h1]
    cases dictGet D e.1 with
    | none => exact ⟨_, rfl⟩
    | some av =>
        cases av with
        | multi l => exact ⟨_, rfl⟩
        | single s => exact ⟨_, rfl⟩
  · rw [if_neg h1]
    exact ⟨_, rfl⟩

theorem parseAppData_nodup (items : List (String × String)) :
    (dictKeys (parseAppData items)).Nodup := by
  suffices hgen : ∀ D : Dict AppValue, (dictKeys D).Nodup →
      (dictKeys (items.foldl appInsert D)).Nodup by
    exact hgen [] (by simp [dictKeys])
  induction items with
  | nil => intro D h; exact h
  | cons e rest ih =>
      intro D h
      rw [List.foldl_cons]
      apply ih
      obtain ⟨v, hv⟩ := appInsert_eq_dictSet D e
      rw [hv]
      exact dictKeys_nodup_dictSet _ _ _ h

theorem keyValues_append (items : List (String × String)) (e : String × String)
    (k : String) :
    keyValues (items ++ [e]) k =
      keyValues items k ++ (if e.1 = k then [e.2] else []) := by
  rw [keyValues, List.filter_append, List.map_append]
  congr 1
  by_cases h : e.1 = k
  · simp [keyValues, h]
  · simp [keyValues, h]

/-- What `_parse_App_Data` stores for a key whose document-ordered value
list is given: nothing if the key never occurs; the whole list for a
multi-valued key; the last value otherwise. -/
def storedValue (k : String) : List String → Option AppValue
  | [] => none
  | v :: vs =>
      if k ∈ multiples then some (AppValue.multi (v :: vs))
      else some (AppValue.single ((v :: vs).getLast (by simp)))

theorem parseAppData_get (items : List (String × String)) (k : String) :
    dictGet (parseAppData items) k = storedValue k (keyValues items k) := by
  induction items using List.reverseRecOn with
  | nil => rfl
  | append_singleton items e ih =>
      rw [parseAppData, List.foldl_append, List.foldl_cons, List.foldl_nil,
        ← parseAppData, keyValues_append]
      by_cases he : e.1 = k
      · subst he
        rw [if_pos rfl, appInsert, ih]
        by_cases hm : e.1 ∈ multiples
        · rw [if_pos hm]
          cases hkv : keyValues items e.1 with
          | nil =>
              rw [show storedValue e.1 [] = none from rfl]
              rw [dictGet_dictSet_self]
              rw [show ([] ++ [e.2] : List String) = [e.2] from rfl]
              rw [show storedValue e.1 [e.2] =
                (if e.1 ∈ multiples then some (AppValue.multi [e.2])
                 else some (AppValue.single e.2)) from rfl]
              rw [if_pos hm]
          | cons v vs =>
              rw [show storedValue e.1 (v :: vs) =
                (if e.1 ∈ multiples then some (AppValue.multi (v :: vs))
                 else some (AppValue.single ((v :: vs).getLast (by simp)))) from rfl]
              rw [if_pos hm, dictGet_dictSet_self]
              rw [show storedValue e.1 (v :: vs ++ [e.2]) =
                (if e.1 ∈ multiples then some (AppValue.multi (v :: vs ++ [e.2]))
                 else some (AppValue.single ((v :: vs ++ [e.2]).getLast (by simp)))) from rfl]
              rw [if_pos hm]
        · rw [if_neg hm, dictGet_dictSet_self]
          cases hkv : keyValues items e.1 with
          | nil =>
              rw [show ([] ++ [e.2] : List String) = [e.2] from rfl]
              rw [show storedValue e.1 [e.2] =
                (if e.1 ∈ multiples then some (AppValue.multi [e.2])
                 else some (AppValue.single e.2)) from rfl]
              rw [if_neg hm]
          | cons v vs =>
              rw [show storedValue e.1 (v :: vs ++ [e.2]) =
                (if e.1 ∈ multiples then some (AppValue.multi (v :: vs ++ [e.2]))
                 else some (AppValue.single ((v :: vs ++ [e.2]).getLast (by simp)))) from rfl]
              rw [if_neg hm]
              rw [show (v :: vs ++ [e.2] : List String).getLast (by simp) =
                ((v :: vs) ++ [e.2] : List String).getLast (by simp) from rfl]
              rw [List.getLast_concat]
      · rw [if_neg he, appInsert_get_ne _ _ _ he, ih]
        simp

theorem keyValues_mem (items : List (String × String)) (k : String) (v : String)
    (h : v ∈ keyValues items k) : (k, v) ∈ items := by
  rw [keyValues] at h
  rcases List.mem_map.mp h with ⟨kv, hkv, rfl⟩
  have := List.mem_filter.mp hkv
  have hk : kv.1 = k := by simpa using this.2
  have : kv = (k, kv.2) := by
    rw [← hk]
  rw [← this]
  exact List.mem_filter.mp hkv |>.1

/-- One section survives the round trip: the values the serializer emits for
every key are exactly the source document's values for that key, in document
order, provided single-valued keys occur at most once and no key of the
section is in the skip list. -/
theorem section_roundtrip (skip : List String) (product : String)
    (items : List (String × String))
    (hso : ∀ k, k ∉ multiples → (keyValues items k).length ≤ 1)
    (hsk : ∀ kv ∈ items, kv.1 ∉ skip) (k : String) :
    elemValues (appDataElems skip product (parseAppData items)) k =
      keyValues items k := by
  rw [elemValues, appDataElems_filter skip product _ (parseAppData_nodup items) k,
    parseAppData_get]
  cases hkv : keyValues items k with
  | nil => rfl
  | cons v vs =>
      have hkmem : (k, v) ∈ items := keyValues_mem items k v (by rw [hkv]; simp)
      have hks : k ∉ skip := hsk (k, v) hkmem
      by_cases hm : k ∈ multiples
      · simp only [storedValue, if_pos hm, if_neg hks, AppValue.iter]
        rw [List.map_map]
        rw [show ((fun e : AppDataElem => e.value) ∘
          fun s => { app := product, name := k, value := s : AppDataElem }) =
            fun s => s from rfl]
        exact List.map_id' _
      · have hlen := hso k hm
        rw [hkv] at hlen
        have hvs : vs = [] := by
          cases vs with
          | nil => rfl
          | cons w ws => simp at hlen
        subst hvs
        simp only [storedValue, if_neg hm, if_neg hks, AppValue.str]
        rfl

/-- Once the three maps hold an asset's values under its class, re-running
the loop over assets all of whose class-`c` members carry those same values
leaves the entries at `c` unchanged. -/
theorem loadFold_stable (c : String) (amsA : Dict String)
    (appA : Dict AppValue) (contA : Option String) :
    ∀ (assets : List AssetXml)
      (st st1 : Dict (Dict String) × Dict (Dict AppValue) × Dict String),
      dictGet st.1 c = some amsA → dictGet st.2.1 c = some appA →
      dictGet st.2.2 c = contA →
      (∀ a2 ∈ assets, dictGet a2.ams "Asset_Class" = some c →
        a2.ams = amsA ∧ parseAppData a2.appData = appA ∧
        (∀ v, a2.content = some v → contA = some v)) →
      assets.foldlM loadStep st = Except.ok st1 →
      dictGet st1.1 c = some amsA ∧ dictGet st1.2.1 c = some appA ∧
        dictGet st1.2.2 c = contA := by
  intro assets
  induction assets with
  | nil =>
      intro st st1 h1 h2 h3 _ h
      simp only [List.foldlM_nil, pure, Except.pure] at h
      injection h with h
      subst h
      exact ⟨h1, h2, h3⟩
  | cons a rest ih =>
      intro st st1 h1 h2 h3 hsame hok
      rw [List.foldlM_cons] at hok
      cases hstep : loadStep st a with
      | error e =>
          rw [hstep] at hok
          simp [bind, Except.bind] at hok
      | ok st2 =>
          rw [hstep] at hok
          simp only [bind, Except.bind] at hok
          rw [loadStep] at hstep
          cases hac : dictGet a.ams "Asset_Class" with
          | none =>
              rw [hac] at hstep
              exact absurd hstep (by simp)
          | some t =>
              rw [hac] at hstep
              injection hstep with hstep
              subst hstep
              by_cases htc : t = c
              · subst htc
                obtain ⟨ha, hb, hc2⟩ := hsame a (List.mem_cons_self _ _) hac
                refine ih _ st1 ?_ ?_ ?_
                  (fun a2 h2m hc3 => hsame a2 (List.mem_cons_of_mem _ h2m) hc3) hok
                · rw [show (dictSet st.1 t a.ams, dictSet st.2.1 t (parseAppData a.appData),
                    match a.content with
                    | some v => dictSet st.2.2 t v
                    | none => st.2.2).1 = dictSet st.1 t a.ams from rfl]
                  rw [dictGet_dictSet_self, ha]
                · rw [show (dictSet st.1 t a.ams, dictSet st.2.1 t (parseAppData a.appData),
                    match a.content with
                    | some v => dictSet st.2.2 t v
                    | none => st.2.2).2.1 = dictSet st.2.1 t (parseAppData a.appData) from rfl]
                  rw [dictGet_dictSet_self, hb]
                · cases hcon : a.content with
                  | none => simpa [hcon] using h3
                  | some v =>
                      have hca := hc2 v hcon
                      simp only [hcon]
                      rw [dictGet_dictSet_self]
                      exact hca.symm
              · refine ih _ st1 ?_ ?_ ?_
                  (fun a2 h2m hc3 => hsame a2 (List.mem_cons_of_mem _ h2m) hc3) hok
                · rw [show (dictSet st.1 t a.ams, dictSet st.2.1 t (parseAppData a.appData),
                    match a.content with
                    | some v => dictSet st.2.2 t v
                    | none => st.2.2).1 = dictSet st.1 t a.ams from rfl]
                  rw [dictGet_dictSet_ne _ _ _ _ htc, h1]
                · rw [show (dictSet st.1 t a.ams, dictSet st.2.1 t (parseAppData a.appData),
                    match a.content with
                    | some v => dictSet st.2.2 t v
                    | none => st.2.2).2.1 = dictSet st.2.1 t (parseAppData a.appData) from rfl]
                  rw [dictGet_dictSet_ne _ _ _ _ htc, h2]
                · cases hcon : a.content with
                  | none => simpa [hcon] using h3
                  | some v =>
                      simp only [hcon]
                      rw [dictGet_dictSet_ne _ _ _ _ htc]
                      exact h3

/-- The asset loop of `__init__` stores, under the class of an asset that is
the only one of its class, that asset's AMS map, parsed App_Data and Content
value. -/
theorem loadFold_found (c : String) :
    ∀ (assets : List AssetXml)
      (st st1 : Dict (Dict String) × Dict (Dict AppValue) × Dict String)
      (a : AssetXml),
      a ∈ assets →
      dictGet a.ams "Asset_Class" = some c →
      (∀ a2 ∈ assets, dictGet a2.ams "Asset_Class" = some c → a2 = a) →
      dictGet st.2.2 c = none →
      assets.foldlM loadStep st = Except.ok st1 →
      dictGet st1.1 c = some a.ams ∧
        dictGet st1.2.1 c = some (parseAppData a.appData) ∧
        dictGet st1.2.2 c = a.content := by
  intro assets
  induction assets with
  | nil => intro st st1 a ha; simp at ha
  | cons a0 rest ih =>
      intro st st1 a ha hac huniq hcn hok
      rw [List.foldlM_cons] at hok
      cases hstep : loadStep st a0 with
      | error e =>
          rw [hstep] at hok
          simp [bind, Except.bind] at hok
      | ok st2 =>
          rw [hstep] at hok
          simp only [bind, Except.bind] at hok
          rw [loadStep] at hstep
          cases hac0 : dictGet a0.ams "Asset_Class" with
          | none =>
              rw [hac0] at hstep
              exact absurd hstep (by simp)
          | some t0 =>
              rw [hac0] at hstep
              injection hstep with hstep
              subst hstep
              by_cases ht0 : t0 = c
              · subst ht0
                have ha0 : a0 = a := huniq a0 (List.mem_cons_self _ _) hac0
                subst ha0
                refine loadFold_stable t0 a0.ams (parseAppData a0.appData) a0.content
                  rest _ st1 ?_ ?_ ?_ ?_ hok
                · exact dictGet_dictSet_self _ _ _
                · exact dictGet_dictSet_self _ _ _
                · cases hcon : a0.content with
                  | some v => simp [hcon]
                  | none => simpa [hcon] using hcn
                · intro a2 h2m hc3
                  have := huniq a2 (List.mem_cons_of_mem _ h2m) hc3
                  subst this
                  exact ⟨rfl, rfl, fun v hv => by rw [hv]⟩
              · have hamem : a ∈ rest := by
                  rcases List.mem_cons.mp ha with h | h
                  · subst h
                    rw [hac] at hac0
                    injection hac0 with hac0
                    exact absurd hac0.symm ht0
                  · exact h
                refine ih _ st1 a hamem hac
                  (fun a2 h2m hc3 => huniq a2 (List.mem_cons_of_mem _ h2m) hc3) ?_ hok
                cases hcon : a0.content with
                | some v =>
                    simp only [hcon]
                    rw [dictGet_dictSet_ne _ _ _ _ ht0]
                    exact hcn
                | none => simpa [hcon] using hcn

theorem loadFold_ok :
    ∀ (assets : List AssetXml)
      (st : Dict (Dict String) × Dict (Dict AppValue) × Dict String),
      (∀ a ∈ assets, (dictGet a.ams "Asset_Class").isSome) →
      ∃ st1, assets.foldlM loadStep st = Except.ok st1 := by
  intro assets
  induction assets with
  | nil => intro st _; exact ⟨st, rfl⟩
  | cons a rest ih =>
      intro st hcl
      have h0 := hcl a (List.mem_cons_self _ _)
      cases hac : dictGet a.ams "Asset_Class" with
      | none => rw [hac] at h0; simp at h0
      | some t =>
          obtain ⟨st1, hst1⟩ := ih
            (dictSet st.1 t a.ams, dictSet st.2.1 t (parseAppData a.appData),
              match a.content with
              | some v => dictSet st.2.2 t v
              | none => st.2.2)
            (fun a2 h2 => hcl a2 (List.mem_cons_of_mem _ h2))
          refine ⟨st1, ?_⟩
          rw [List.foldlM_cons,
            show loadStep st a = Except.ok
              (dictSet st.1 t a.ams, dictSet st.2.1 t (parseAppData a.appData),
                match a.content with
                | some v => dictSet st.2.2 t v
                | none => st.2.2) by rw [loadStep, hac]]
          simpa [bind, Except.bind] using hst1

theorem dictGet_append {α : Type} (d1 d2 : Dict α) (k : String) :
    dictGet (d1 ++ d2) k =
      match dictGet d1 k with
      | some v => some v
      | none => dictGet d2 k := by
  induction d1 with
  | nil => simp [dictGet]
  | cons hd tl ih =>
      obtain ⟨k1, v1⟩ := hd
      by_cases h1 : k1 = k <;> simp [dictGet, h1, ih]

/-- The `write_xml` asset loop, over any duplicate-free list of section
names whose keys do not yet occur in the accumulator: it succeeds whenever
every present section has an App_Data map, appends one output entry per
present section, and looks up as expected. -/
theorem foldlM_assetStep_char (skip : List String) (product : String)
    (p : VodPackage) :
    ∀ (ts : List String) (acc : List (String × AssetOut)),
      ts.Nodup →
      (∀ t ∈ ts, (dictGet p.D_ams t).isSome → (dictGet p.D_app t).isSome) →
      (∀ t ∈ ts, dictGet acc t = none) →
      ∃ assets, ts.foldlM (assetStep skip product p) acc = Except.ok assets ∧
        (∀ t, t ∉ ts → dictGet assets t = dictGet acc t) ∧
        (∀ t ∈ ts, ∀ aeAms aeApp,
          dictGet p.D_ams t = some aeAms → dictGet p.D_app t = some aeApp →
          dictGet assets t = some
            { amsAttrs := sortByKey aeAms
              appData := appDataElems skip product aeApp
              content := dictGet p.D_content t }) ∧
        (∀ t ∈ ts, dictGet p.D_ams t = none → dictGet assets t = none) := by
  intro ts
  induction ts with
  | nil =>
      intro acc _ _ _
      exact ⟨acc, rfl, fun t _ => rfl, fun t ht => by simp at ht,
        fun t ht => by simp at ht⟩
  | cons t0 ts ih =>
      intro acc hnd hboth hacc
      rw [List.nodup_cons] at hnd
      cases hams : dictGet p.D_ams t0 with
      | none =>
          obtain ⟨assets, hfold, hout, hin, habs⟩ := ih acc hnd.2
            (fun t ht => hboth t (List.mem_cons_of_mem _ ht))
            (fun t ht => hacc t (List.mem_cons_of_mem _ ht))
          refine ⟨assets, ?_, ?_, ?_, ?_⟩
          · rw [List.foldlM_cons,
              show assetStep skip product p acc t0 = Except.ok acc by
                rw [assetStep, hams]]
            simpa [bind, Except.bind] using hfold
          · intro t ht
            rw [List.mem_cons] at ht
            push_neg at ht
            exact hout t ht.2
          · intro t ht aeAms aeApp haeAms haeApp
            rcases List.mem_cons.mp ht with h | h
            · subst h
              rw [haeAms] at hams
              exact absurd hams (by simp)
            · exact hin t h aeAms aeApp haeAms haeApp
          · intro t ht hnone
            rcases List.mem_cons.mp ht with h | h
            · subst h
              rw [hout t hnd.1]
              exact hacc t (List.mem_cons_self _ _)
            · exact habs t h hnone
      | some aeAms0 =>
          have happ0 := hboth t0 (List.mem_cons_self _ _) (by rw [hams]; rfl)
          cases happ : dictGet p.D_app t0 with
          | none => rw [happ] at happ0; simp at happ0
          | some aeApp0 =>
              have hstep : assetStep skip product p acc t0 = Except.ok
                  (acc ++ [(t0,
                    { amsAttrs := sortByKey aeAms0
                      appData := appDataElems skip product aeApp0
                      content := dictGet p.D_content t0 })]) := by
                rw [assetStep, hams, happ]
              obtain ⟨assets, hfold, hout, hin, habs⟩ := ih
                (acc ++ [(t0,
                  { amsAttrs := sortByKey aeAms0
                    appData := appDataElems skip product aeApp0
                    content := dictGet p.D_content t0 })]) hnd.2
                (fun t ht => hboth t (List.mem_cons_of_mem _ ht))
                (fun t ht => by
                  rw [dictGet_append, hacc t (List.mem_cons_of_mem _ ht)]
                  have htne : ¬ t0 = t := fun he => hnd.1 (he ▸ ht)
                  simp [dictGet, htne])
              refine ⟨assets, ?_, ?_, ?_, ?_⟩
              · rw [List.foldlM_cons, hstep]
                simpa [bind, Except.bind] using hfold
              · intro t ht
                rw [List.mem_cons] at ht
                push_neg at ht
                rw [hout t ht.2, dictGet_append]
                cases hat : dictGet acc t with
                | some v => rfl
                | none =>
                    have hne : ¬ t0 = t := fun he => ht.1 he.symm
                    simp [dictGet, hne]
              · intro t ht aeAms aeApp haeAms haeApp
                rcases List.mem_cons.mp ht with h | h
                · subst h
                  rw [haeAms] at hams
                  injection hams with hams
                  rw [happ] at haeApp
                  injection haeApp with haeApp
                  subst hams
                  subst haeApp
                  rw [hout t hnd.1, dictGet_append,
                    hacc t (List.mem_cons_self _ _)]
                  simp [dictGet]
                · exact hin t h aeAms aeApp haeAms haeApp
              · intro t ht hnone
                rcases List.mem_cons.mp ht with h | h
                · subst h
                  rw [hnone] at hams
                  exact absurd hams (by simp)
                · exact habs t h hnone

/-- Well-formedness of a source document for the round-trip claim: package
AMS carries `Product` and `Version_Major`; every nested asset carries an
`Asset_Class` among movie/preview/poster; classes are unique; a movie asset
exists; and single-valued App_Data names occur at most once per section. -/
def WellFormedAdi (x : AdiXml) : Prop :=
  (∃ pr, dictGet x.pkgAms "Product" = some pr) ∧
  (∃ vm, dictGet x.pkgAms "Version_Major" = some vm) ∧
  (∀ a ∈ x.assets, ∃ c, dictGet a.ams "Asset_Class" = some c ∧
    c ∈ (["movie", "preview", "poster"] : List String)) ∧
  (∀ a ∈ x.assets, ∀ a2 ∈ x.assets, ∀ c,
    dictGet a.ams "Asset_Class" = some c →
    dictGet a2.ams "Asset_Class" = some c → a2 = a) ∧
  (∃ a ∈ x.assets, dictGet a.ams "Asset_Class" = some "movie") ∧
  (∀ k, k ∉ multiples → (keyValues x.pkgAppData k).length ≤ 1) ∧
  (∀ k, k ∉ multiples → (keyValues x.titleAppData k).length ≤ 1) ∧
  (∀ a ∈ x.assets, ∀ k, k ∉ multiples → (keyValues a.appData k).length ≤ 1)

/-- C1 (amended): loading a well-formed package and immediately serializing
it (without rescan) reproduces, for every section, the AMS attributes up to
the canonical sorted reordering and, for every key, exactly the source
document's App_Data values in document order — multi-valued sequences
preserved — and each asset's Content reference, provided no App_Data key of
the document lies in the configured skip list (a skip-listed key is dropped
from the output; see the counterexample). -/
theorem C1_roundtrip (skip : List String) (x : AdiXml)
    (hwf : WellFormedAdi x)
    (hsk1 : ∀ kv ∈ x.pkgAppData, kv.1 ∉ skip)
    (hsk2 : ∀ kv ∈ x.titleAppData, kv.1 ∉ skip)
    (hsk3 : ∀ a ∈ x.assets, ∀ kv ∈ a.appData, kv.1 ∉ skip) :
    ∃ p out, load x = Except.ok p ∧ writeXml skip p = Except.ok out ∧
      out.pkg.amsAttrs.Perm x.pkgAms ∧
      out.title.amsAttrs.Perm x.titleAms ∧
      (∀ k, elemValues out.pkg.appData k = keyValues x.pkgAppData k) ∧
      (∀ k, elemValues out.title.appData k = keyValues x.titleAppData k) ∧
      (∀ a ∈ x.assets, ∀ c, dictGet a.ams "Asset_Class" = some c →
        ∃ o, dictGet out.assets c = some o ∧
          o.amsAttrs.Perm a.ams ∧
          (∀ k, elemValues o.appData k = keyValues a.appData k) ∧
          o.content = a.content) := by
  obtain ⟨⟨pr, hpr⟩, ⟨vm0, hvm⟩, hcls, huniq, ⟨am, ham, hamc⟩, hso1, hso2, hso3⟩ := hwf
  obtain ⟨st1, hfold⟩ := loadFold_ok x.assets (amsInit x, appInit x, [])
    (fun a ha => by obtain ⟨c, hc, _⟩ := hcls a ha; rw [hc]; rfl)
  have hnotpkg : ∀ a ∈ x.assets, dictGet a.ams "Asset_Class" ≠ some "package" := by
    intro a ha hc
    obtain ⟨c, hc2, hcm⟩ := hcls a ha
    rw [hc2] at hc
    injection hc with hc
    subst hc
    simp at hcm
  have hnottitle : ∀ a ∈ x.assets, dictGet a.ams "Asset_Class" ≠ some "title" := by
    intro a ha hc
    obtain ⟨c, hc2, hcm⟩ := hcls a ha
    rw [hc2] at hc
    injection hc with hc
    subst hc
    simp at hcm
  have hpresP := loadFold_preserve "package" x.assets _ st1 hnotpkg hfold
  have hpresT := loadFold_preserve "title" x.assets _ st1 hnottitle hfold
  have hpkgAms : dictGet st1.1 "package" = some x.pkgAms := by
    rw [hpresP.1]
    show dictGet (amsInit x) "package" = some x.pkgAms
    rw [amsInit, dictGet_dictSet_ne _ _ _ _ (by decide)]
    exact dictGet_dictSet_self _ _ _
  have htitleAms : dictGet st1.1 "title" = some x.titleAms := by
    rw [hpresT.1]
    show dictGet (amsInit x) "title" = some x.titleAms
    rw [amsInit]
    exact dictGet_dictSet_self _ _ _
  have hpkgApp : dictGet st1.2.1 "package" = some (parseAppData x.pkgAppData) := by
    rw [hpresP.2.1]
    show dictGet (appInit x) "package" = some (parseAppData x.pkgAppData)
    rw [appInit, dictGet_dictSet_ne _ _ _ _ (by decide)]
    exact dictGet_dictSet_self _ _ _
  have htitleApp : dictGet st1.2.1 "title" = some (parseAppData x.titleAppData) := by
    rw [hpresT.2.1]
    show dictGet (appInit x) "title" = some (parseAppData x.titleAppData)
    rw [appInit]
    exact dictGet_dictSet_self _ _ _
  have hfoundAll : ∀ a ∈ x.assets, ∀ c, dictGet a.ams "Asset_Class" = some c →
      dictGet st1.1 c = some a.ams ∧
      dictGet st1.2.1 c = some (parseAppData a.appData) ∧
      dictGet st1.2.2 c = a.content := by
    intro a ha c hc
    exact loadFold_found c x.assets (amsInit x, appInit x, ([] : Dict String)) st1 a ha hc
      (fun a2 h2 hc2 => huniq a ha a2 h2 c hc hc2) rfl hfold
  have hmovAms := (hfoundAll am ham "movie" hamc).1
  have hload : load x = Except.ok
      { xml_path := x.xmlPath
        D_ams := st1.1, D_app := st1.2.1, D_content := st1.2.2
        has_preview := (dictGet st1.1 "preview").isSome
        has_poster := (dictGet st1.1 "poster").isSome
        is_update := vm0 != "1"
        is_delete := (dictGet x.pkgAms "Verb").getD "" == "DELETE" } := by
    show (do
      let folded ← x.assets.foldlM loadStep (amsInit x, appInit x, ([] : Dict String))
      let pkgEntry ← pyGet folded.1 "package"
      let vm ← pyGet pkgEntry "Version_Major"
      pure { xml_path := x.xmlPath
             D_ams := folded.1, D_app := folded.2.1, D_content := folded.2.2
             has_preview := (dictGet folded.1 "preview").isSome
             has_poster := (dictGet folded.1 "poster").isSome
             is_update := vm != "1"
             is_delete := (dictGet x.pkgAms "Verb").getD "" == "DELETE"
             : VodPackage } : Except PyError VodPackage) = _
    rw [hfold]
    simp only [bind, Except.bind]
    rw [show pyGet st1.1 "package" = Except.ok x.pkgAms by simp [pyGet, hpkgAms]]
    show (do
      let vm ← pyGet x.pkgAms "Version_Major"
      pure { xml_path := x.xmlPath
             D_ams := st1.1, D_app := st1.2.1, D_content := st1.2.2
             has_preview := (dictGet st1.1 "preview").isSome
             has_poster := (dictGet st1.1 "poster").isSome
             is_update := vm != "1"
             is_delete := (dictGet x.pkgAms "Verb").getD "" == "DELETE"
             : VodPackage } : Except PyError VodPackage) = _
    rw [show pyGet x.pkgAms "Version_Major" = Except.ok vm0 by simp [pyGet, hvm]]
    rfl
  have hboth : ∀ t ∈ (["movie", "preview", "poster"] : List String),
      (dictGet st1.1 t).isSome → (dictGet st1.2.1 t).isSome := by
    intro t htl hsome
    by_cases hex : ∃ a ∈ x.assets, dictGet a.ams "Asset_Class" = some t
    · obtain ⟨a, ha, hc⟩ := hex
      rw [(hfoundAll a ha t hc).2.1]
      rfl
    · push_neg at hex
      have hpresX := loadFold_preserve t x.assets _ st1
        (fun a ha hc => hex a ha hc) hfold
      rw [hpresX.1] at hsome
      have htl3 : t = "movie" ∨ t = "preview" ∨ t = "poster" := by
        simpa using htl
      have hne1 : ¬ "package" = t := by
        rcases htl3 with rfl | rfl | rfl <;> decide
      have hne2 : ¬ "title" = t := by
        rcases htl3 with rfl | rfl | rfl <;> decide
      rw [show dictGet (amsInit x, appInit x, ([] : Dict String)).1 t =
          dictGet (amsInit x) t from rfl] at hsome
      rw [amsInit, dictGet_dictSet_ne _ _ _ _ hne2,
        dictGet_dictSet_ne _ _ _ _ hne1] at hsome
      simp [dictGet] at hsome
  obtain ⟨assetsOut, hfoldW, houtW, hinW, habsW⟩ :=
    foldlM_assetStep_char skip pr
      { xml_path := x.xmlPath
        D_ams := st1.1, D_app := st1.2.1, D_content := st1.2.2
        has_preview := (dictGet st1.1 "preview").isSome
        has_poster := (dictGet st1.1 "poster").isSome
        is_update := vm0 != "1"
        is_delete := (dictGet x.pkgAms "Verb").getD "" == "DELETE" }
      ["movie", "preview", "poster"] [] (by decide) hboth (fun t _ => rfl)
  have hwrite : writeXml skip
      { xml_path := x.xmlPath
        D_ams := st1.1, D_app := st1.2.1, D_content := st1.2.2
        has_preview := (dictGet st1.1 "preview").isSome
        has_poster := (dictGet st1.1 "poster").isSome
        is_update := vm0 != "1"
        is_delete := (dictGet x.pkgAms "Verb").getD "" == "DELETE" } = Except.ok
      { pkg := { amsAttrs := sortByKey x.pkgAms
                 appData := appDataElems skip pr (parseAppData x.pkgAppData) }
        title := { amsAttrs := sortByKey x.titleAms
                   appData := appDataElems skip pr (parseAppData x.titleAppData) }
        assets := assetsOut } := by
    rw [writeXml]
    rw [show dictGet
      ({ xml_path := x.xmlPath
         D_ams := st1.1, D_app := st1.2.1, D_content := st1.2.2
         has_preview := (dictGet st1.1 "preview").isSome
         has_poster := (dictGet st1.1 "poster").isSome
         is_update := vm0 != "1"
         is_delete := (dictGet x.pkgAms "Verb").getD "" == "DELETE"
         : VodPackage }).D_ams "movie" = some am.ams from hmovAms]
    rw [if_pos (by rfl)]
    show (do
      let pkgAms ← pyGet st1.1 "package"
      let product ← pyGet pkgAms "Product"
      let pkgApp ← pyGet st1.2.1 "package"
      let titleAms ← pyGet st1.1 "title"
      let titleApp ← pyGet st1.2.1 "title"
      let assets ← ["movie", "preview", "poster"].foldlM
        (assetStep skip product
          { xml_path := x.xmlPath
            D_ams := st1.1, D_app := st1.2.1, D_content := st1.2.2
            has_preview := (dictGet st1.1 "preview").isSome
            has_poster := (dictGet st1.1 "poster").isSome
            is_update := vm0 != "1"
            is_delete := (dictGet x.pkgAms "Verb").getD "" == "DELETE" }) []
      pure { pkg := { amsAttrs := sortByKey pkgAms
                      appData := appDataElems skip product pkgApp }
             title := { amsAttrs := sortByKey titleAms
                        appData := appDataElems skip product titleApp }
             assets := assets : AdiOut } : Except PyError AdiOut) = _
    rw [show pyGet st1.1 "package" = Except.ok x.pkgAms by simp [pyGet, hpkgAms]]
    show (do
      let product ← pyGet x.pkgAms "Product"
      let pkgApp ← pyGet st1.2.1 "package"
      let titleAms ← pyGet st1.1 "title"
      let titleApp ← pyGet st1.2.1 "title"
      let assets ← ["movie", "preview", "poster"].foldlM
        (assetStep skip product
          { xml_path := x.xmlPath
            D_ams := st1.1, D_app := st1.2.1, D_content := st1.2.2
            has_preview := (dictGet st1.1 "preview").isSome
            has_poster := (dictGet st1.1 "poster").isSome
            is_update := vm0 != "1"
            is_delete := (dictGet x.pkgAms "Verb").getD "" == "DELETE" }) []
      pure { pkg := { amsAttrs := sortByKey x.pkgAms
                      appData := appDataElems skip product pkgApp }
             title := { amsAttrs := sortByKey titleAms
                        appData := appDataElems skip product titleApp }
             assets := assets : AdiOut } : Except PyError AdiOut) = _
    rw [show pyGet x.pkgAms "Product" = Except.ok pr by simp [pyGet, hpr]]
    show (do
      let pkgApp ← pyGet st1.2.1 "package"
      let titleAms ← pyGet st1.1 "title"
      let titleApp ← pyGet st1.2.1 "title"
      let assets ← ["movie", "preview", "poster"].foldlM
        (assetStep skip pr
          { xml_path := x.xmlPath
            D_ams := st1.1, D_app := st1.2.1, D_content := st1.2.2
            has_preview := (dictGet st1.1 "preview").isSome
            has_poster := (dictGet st1.1 "poster").isSome
            is_update := vm0 != "1"
            is_delete := (dictGet x.pkgAms "Verb").getD "" == "DELETE" }) []
      pure { pkg := { amsAttrs := sortByKey x.pkgAms
                      appData := appDataElems skip pr pkgApp }
             title := { amsAttrs := sortByKey titleAms
                        appData := appDataElems skip pr titleApp }
             assets := assets : AdiOut } : Except PyError AdiOut) = _
    rw [show pyGet st1.2.1 "package" = Except.ok (parseAppData x.pkgAppData)
      by simp [pyGet, hpkgApp]]
    show (do
      let titleAms ← pyGet st1.1 "title"
      let titleApp ← pyGet st1.2.1 "title"
      let assets ← ["movie", "preview", "poster"].foldlM
        (assetStep skip pr
          { xml_path := x.xmlPath
            D_ams := st1.1, D_app := st1.2.1, D_content := st1.2.2
            has_preview := (dictGet st1.1 "preview").isSome
            has_poster := (dictGet st1.1 "poster").isSome
            is_update := vm0 != "1"
            is_delete := (dictGet x.pkgAms "Verb").getD "" == "DELETE" }) []
      pure { pkg := { amsAttrs := sortByKey x.pkgAms
                      appData := appDataElems skip pr (parseAppData x.pkgAppData) }
             title := { amsAttrs := sortByKey titleAms
                        appData := appDataElems skip pr titleApp }
             assets := assets : AdiOut } : Except PyError AdiOut) = _
    rw [show pyGet st1.1 "title" = Except.ok x.titleAms by simp [pyGet, htitleAms]]
    show (do
      let titleApp ← pyGet st1.2.1 "title"
      let assets ← ["movie", "preview", "poster"].foldlM
        (assetStep skip pr
          { xml_path := x.xmlPath
            D_ams := st1.1, D_app := st1.2.1, D_content := st1.2.2
            has_preview := (dictGet st1.1 "preview").isSome
            has_poster := (dictGet st1.1 "poster").isSome
            is_update := vm0 != "1"
            is_delete := (dictGet x.pkgAms "Verb").getD "" == "DELETE" }) []
      pure { pkg := { amsAttrs := sortByKey x.pkgAms
                      appData := appDataElems skip pr (parseAppData x.pkgAppData) }
             title := { amsAttrs := sortByKey x.titleAms
                        appData := appDataElems skip pr titleApp }
             assets := assets : AdiOut } : Except PyError AdiOut) = _
    rw [show pyGet st1.2.1 "title" = Except.ok (parseAppData x.titleAppData)
      by simp [pyGet, htitleApp]]
    show (do
      let assets ← ["movie", "preview", "poster"].foldlM
        (assetStep skip pr
          { xml_path := x.xmlPath
            D_ams := st1.1, D_app := st1.2.1, D_content := st1.2.2
            has_preview := (dictGet st1.1 "preview").isSome
            has_poster := (dictGet st1.1 "poster").isSome
            is_update := vm0 != "1"
            is_delete := (dictGet x.pkgAms "Verb").getD "" == "DELETE" }) []
      pure { pkg := { amsAttrs := sortByKey x.pkgAms
                      appData := appDataElems skip pr (parseAppData x.pkgAppData) }
             title := { amsAttrs := sortByKey x.titleAms
                        appData := appDataElems skip pr (parseAppData x.titleAppData) }
             assets := assets : AdiOut } : Except PyError AdiOut) = _
    rw [hfoldW]
    rfl
  refine ⟨_, _, hload, hwrite, ?_, ?_, ?_, ?_, ?_⟩
  · exact sortByKey_perm x.pkgAms
  · exact sortByKey_perm x.titleAms
  · intro k
    exact section_roundtrip skip pr x.pkgAppData hso1 hsk1 k
  · intro k
    exact section_roundtrip skip pr x.titleAppData hso2 hsk2 k
  · intro a ha c hc
    obtain ⟨cc, hc2, hcm⟩ := hcls a ha
    rw [hc2] at hc
    injection hc with hc
    subst hc
    obtain ⟨hfa, hfb, hfc⟩ := hfoundAll a ha cc hc2
    refine ⟨{ amsAttrs := sortByKey a.ams
              appData := appDataElems skip pr (parseAppData a.appData)
              content := a.content }, ?_, sortByKey_perm a.ams, ?_, rfl⟩
    · have := hinW cc hcm a.ams (parseAppData a.appData) hfa hfb
      rw [← hfc]
      exact this
    · intro k
      exact section_roundtrip skip pr a.appData (hso3 a ha) (hsk3 a ha) k

/-- A concrete well-formed document with one package App_Data entry whose
key sits on the configured skip list. -/
def c1x : AdiXml :=
  { xmlPath := "pkg/x.xml"
    pkgAms := [("Product", "MOD"), ("Version_Major", "1")]
    pkgAppData := [("Title_Brief", "T")]
    titleAms := [], titleAppData := []
    assets := [{ ams := [("Asset_Class", "movie")], appData := [], content := none }] }

/-- The package `load` builds from `c1x`. -/
def c1p : VodPackage :=
  { xml_path := "pkg/x.xml"
    D_ams := [("package", [("Product", "MOD"), ("Version_Major", "1")]),
              ("title", []),
              ("movie", [("Asset_Class", "movie")])]
    D_app := [("package", [("Title_Brief", AppValue.single "T")]),
              ("title", []),
              ("movie", [])]
    D_content := []
    has_preview := false, has_poster := false
    is_update := false, is_delete := false }

/-- The tree `write_xml` emits for `c1p` when `Title_Brief` is skip-listed. -/
def c1out : AdiOut :=
  { pkg := { amsAttrs := [("Product", "MOD"), ("Version_Major", "1")], appData := [] }
    title := { amsAttrs := [], appData := [] }
    assets := [("movie",
      { amsAttrs := [("Asset_Class", "movie")], appData := [], content := none })] }

/-- C1 counterexample: with `Title_Brief` on the configured skip list, the
source document stores `Title_Brief = "T"` in the package section, but the
serialization of the freshly loaded package emits no `Title_Brief` element
at all — the round trip is not value-identical for skip-listed keys. -/
theorem C1_counterexample :
    load c1x = Except.ok c1p ∧
    writeXml ["Title_Brief"] c1p = Except.ok c1out ∧
    keyValues c1x.pkgAppData "Title_Brief" = ["T"] ∧
    elemValues c1out.pkg.appData "Title_Brief" = [] := by
  refine ⟨rfl, ?_, rfl, rfl⟩
  rw [writeXml, if_pos (by decide)]
  show (do
    let pkgAms ← pyGet c1p.D_ams "package"
    let product ← pyGet pkgAms "Product"
    let pkgApp ← pyGet c1p.D_app "package"
    let titleAms ← pyGet c1p.D_ams "title"
    let titleApp ← pyGet c1p.D_app "title"
    let assets ← ["movie", "preview", "poster"].foldlM
      (assetStep ["Title_Brief"] product c1p) []
    pure {
      pkg := { amsAttrs := sortByKey pkgAms
               appData := appDataElems ["Title_Brief"] product pkgApp }
      title := { amsAttrs := sortByKey titleAms
                 appData := appDataElems ["Title_Brief"] product titleApp }
      assets := assets : AdiOut } : Except PyError AdiOut) = _
  show Except.ok
    { pkg := { amsAttrs := sortByKey [("Product", "MOD"), ("Version_Major", "1")]
               appData := appDataElems ["Title_Brief"] "MOD"
                 [("Title_Brief", AppValue.single "T")] }
      title := { amsAttrs := sortByKey ([] : Dict String)
                 appData := appDataElems ["Title_Brief"] "MOD" ([] : Dict AppValue) }
      assets := [("movie",
        { amsAttrs := sortByKey [("Asset_Class", "movie")]
          appData := appDataElems ["Title_Brief"] "MOD" ([] : Dict AppValue)
          content := none })] : AdiOut } = _
  simp +decide [c1out, sortByKey, appDataElems, List.mergeSort, List.merge]

/-- The single movie asset of the witness document `c1wx`. -/
def c1wa : AssetXml :=
  { ams := [("Asset_Class", "movie")], appData := [("Genre", "A")]
    content := some "pkg/a.mpg" }

/-- A concrete well-formed document with no skip-listed key: package AMS
with `Product` and `Version_Major`, one package App_Data entry, and one
movie asset. -/
def c1wx : AdiXml :=
  { xmlPath := "pkg/w.xml"
    pkgAms := [("Product", "MOD"), ("Version_Major", "1")]
    pkgAppData := [("Title_Brief", "T")]
    titleAms := [], titleAppData := []
    assets := [c1wa] }

theorem c1wx_wf : WellFormedAdi c1wx := by
  refine ⟨⟨"MOD", rfl⟩, ⟨"1", rfl⟩, ?_, ?_, ?_, ?_, ?_, ?_⟩
  · intro a ha
    have ha2 : a = c1wa := by simpa [c1wx] using ha
    subst ha2
    exact ⟨"movie", rfl, by decide⟩
  · intro a ha a2 ha2 c _ _
    have hb : a = c1wa := by simpa [c1wx] using ha
    have hb2 : a2 = c1wa := by simpa [c1wx] using ha2
    rw [hb, hb2]
  · exact ⟨c1wa, by simp [c1wx], rfl⟩
  · intro k _
    have := List.length_filter_le (fun kv : String × String => decide (kv.1 = k))
      [("Title_Brief", "T")]
    simpa [keyValues] using this
  · intro k _
    simp [c1wx, keyValues]
  · intro a ha k _
    have ha2 : a = c1wa := by simpa [c1wx] using ha
    subst ha2
    have := List.length_filter_le (fun kv : String × String => decide (kv.1 = k))
      [("Genre", "A")]
    simpa [c1wa, keyValues] using this

/-- Witness for C1 at `c1wx` with an empty skip list. -/
theorem C1_roundtrip_witness :
    WellFormedAdi c1wx ∧
    (∃ p out, load c1wx = Except.ok p ∧ writeXml [] p = Except.ok out ∧
      out.pkg.amsAttrs.Perm c1wx.pkgAms ∧
      out.title.amsAttrs.Perm c1wx.titleAms ∧
      (∀ k, elemValues out.pkg.appData k = keyValues c1wx.pkgAppData k) ∧
      (∀ k, elemValues out.title.appData k = keyValues c1wx.titleAppData k) ∧
      (∀ a ∈ c1wx.assets, ∀ c, dictGet a.ams "Asset_Class" = some c →
        ∃ o, dictGet out.assets c = some o ∧
          o.amsAttrs.Perm a.ams ∧
          (∀ k, elemValues o.appData k = keyValues a.appData k) ∧
          o.content = a.content)) :=
  ⟨c1wx_wf, C1_roundtrip [] c1wx c1wx_wf (by simp) (by simp) (by simp)⟩
